import Mathlib

/-!
# ipdb-go reader: shallow embedding and checked properties

The definitions below follow `reader.go` function by function.

Conventions of the embedding.

* A Go `int` / `int64` is an `Int`; arithmetic on values that come from the
  file (metadata numbers, node pointers) is wrapped to 64 bits with `wrap64`.
* A byte is a `Nat`; a `[]byte` is a `List Nat`.
* A Go function that may stop with a run-time panic (slice bounds or index out
  of range) returns `Option _`, `none` being the panic.  The Go result tuple
  `(value, error)` is kept as a pair, the error being `Option Err`
  (`none` for `nil`).  A `nil` slice and an empty slice are both `[]`.
* A slice expression `s[lo:hi]` on a slice is checked by Go against the
  CAPACITY of `s`, not its length.  The field `slack` of `reader` holds the
  bytes of the backing array of `data` that lie between `len(data)` and
  `cap(data)` (what `ioutil.ReadFile` allocated beyond the file's size).
* `net.ParseIP` and `json.Unmarshal` are library functions; they are
  parameters of the functions that call them.
-/

namespace Ipdb

set_option maxRecDepth 100000

/-! ## Machine integers and byte buffers -/

/-- Two's complement wrap of an integer to the range of a Go `int64`. -/
def wrap64 (x : Int) : Int := (x + 2 ^ 63) % 2 ^ 64 - 2 ^ 63

/-- Slice expression `s[lo:hi]` on a slice whose backing array holds `buf`
(so `cap(s) = buf.length`): `none` is the run-time panic. -/
def sliceCap {α : Type} (buf : List α) (lo hi : Int) : Option (List α) :=
  if 0 ≤ lo ∧ lo ≤ hi ∧ hi ≤ (buf.length : Int) then
    some ((buf.drop lo.toNat).take (hi - lo).toNat)
  else none

/-- `binary.BigEndian.Uint32` on a slice of length 4. -/
def Uint32 (b : List Nat) : Nat :=
  b.getD 3 0 + b.getD 2 0 * 2 ^ 8 + b.getD 1 0 * 2 ^ 16 + b.getD 0 0 * 2 ^ 24

/-- `binary.BigEndian.Uint16` on a slice of length 2. -/
def Uint16 (b : List Nat) : Nat :=
  b.getD 1 0 + b.getD 0 0 * 2 ^ 8

/-- `binary.BigEndian.PutUint32` into a fresh 4-byte slice. -/
def PutUint32 (v : Nat) : List Nat :=
  [v / 2 ^ 24 % 256, v / 2 ^ 16 % 256, v / 2 ^ 8 % 256, v % 256]

/-- `strings.Split(s, "\t")` on the bytes of `s`: one more piece than there are
tab bytes; the empty string gives one empty piece. -/
def splitTab : List Nat → List (List Nat)
  | [] => [[]]
  | b :: bs =>
    if b = 9 then [] :: splitTab bs
    else
      match splitTab bs with
      | [] => [[b]]
      | h :: t => (b :: h) :: t

/-! ## Data model -/

/-- The package's error values (`ErrJSON` stands for whatever error
`json.Unmarshal` returns). -/
inductive Err
  | ErrFileSize
  | ErrMetaData
  | ErrReadFull
  | ErrDatabaseError
  | ErrIPFormat
  | ErrNoSupportLanguage
  | ErrNoSupportIPv4
  | ErrNoSupportIPv6
  | ErrDataNotExists
  | ErrJSON
  deriving DecidableEq, Repr

/-- `type MetaData struct`; the map `Languages` is an association list. -/
structure MetaData where
  Build : Int
  IPVersion : Nat
  Languages : List (String × Int)
  NodeCount : Int
  TotalSize : Int
  Fields : List String
  deriving DecidableEq, Repr

/-- `type reader struct` (without `refType`, which no function below reads),
with the ghost field `slack`: the bytes between `len(data)` and `cap(data)`. -/
structure reader where
  fileSize : Int
  nodeCount : Int
  v4offset : Int
  meta : MetaData
  data : List Nat
  slack : List Nat
  deriving DecidableEq, Repr

/-- `const IPv4 = 0x01`. -/
def IPv4 : Nat := 1

/-- `const IPv6 = 0x02`. -/
def IPv6 : Nat := 2

/-! ## Trie store -/

/-- `func (db *reader) readNode(node, index int) int`. -/
def readNode (db : reader) (node index : Int) : Option Int :=
  let off := wrap64 (wrap64 (node * 8) + wrap64 (index * 4))
  match sliceCap (db.data ++ db.slack) off (wrap64 (off + 4)) with
  | none => none
  | some b => some (Uint32 b : Int)

/-- The expression `((0xFF&int(ip[i>>3]))>>uint(7-(i%8)))&1` for the byte
`b = ip[i>>3]`. -/
def ipBit (b : Nat) (i : Nat) : Nat := ((255 &&& b) >>> (7 - i % 8)) &&& 1

/-- `func (db *reader) resolve(node int) ([]byte, error)`. -/
def resolve (db : reader) (node : Int) : Option (List Nat × Option Err) :=
  let resolved := wrap64 (wrap64 (node - db.nodeCount) + wrap64 (db.nodeCount * 8))
  if resolved ≥ db.fileSize then some ([], some Err.ErrDatabaseError)
  else
    match sliceCap (db.data ++ db.slack) resolved (wrap64 (resolved + 2)) with
    | none => none
    | some b =>
      let size : Int := Uint16 b
      if wrap64 (wrap64 (resolved + 2) + size) > (db.data.length : Int) then
        some ([], some Err.ErrDatabaseError)
      else
        match sliceCap (db.data ++ db.slack) (wrap64 (resolved + 2))
            (wrap64 (wrap64 (resolved + 2) + size)) with
        | none => none
        | some bytes => some (bytes, none)

/-- `func (db *reader) IsIPv4Support() bool`. -/
def IsIPv4Support (db : reader) : Bool := (db.meta.IPVersion &&& IPv4) == IPv4

/-- `func (db *reader) IsIPv6Support() bool`. -/
def IsIPv6Support (db : reader) : Bool := (db.meta.IPVersion &&& IPv6) == IPv6

/-! ## Address search -/

/-- The `for i := 0; i < bitCount; i++` loop of `search`, with `rem` iterations
left to run, at loop index `i` and current `node`; the result is the value of
`node` when the loop is left. -/
def searchLoop (db : reader) (ip : List Nat) : Nat → Nat → Int → Option Int
  | 0, _, node => some node
  | rem + 1, i, node =>
    if node > db.nodeCount then some node
    else
      match ip[i >>> 3]? with
      | none => none
      | some b =>
        match readNode db node (ipBit b i) with
        | none => none
        | some n => searchLoop db ip rem (i + 1) n

/-- `func (db *reader) search(ip net.IP, bitCount int) (int, error)`. -/
def search (db : reader) (ip : List Nat) (bitCount : Nat) : Option (Int × Option Err) :=
  let node := if bitCount = 32 then db.v4offset else 0
  match searchLoop db ip bitCount 0 node with
  | none => none
  | some node =>
    if node > db.nodeCount then some (node, none)
    else some (-1, some Err.ErrDataNotExists)

/-- `net.IP.To4`: the 4-byte form of a 4-byte address or of a 16-byte
IPv4-mapped address; `none` is `nil`. -/
def To4 (ip : List Nat) : Option (List Nat) :=
  if ip.length = 4 then some ip
  else if ip.length = 16 ∧ ip.take 10 = List.replicate 10 0 ∧ ip.getD 10 0 = 255
      ∧ ip.getD 11 0 = 255 then some (ip.drop 12)
  else none

/-- `net.IP.To16`; `none` is `nil`. -/
def To16 (ip : List Nat) : Option (List Nat) :=
  if ip.length = 4 then some (List.replicate 10 0 ++ [255, 255] ++ ip)
  else if ip.length = 16 then some ip
  else none

/-- `func (db *reader) find0(addr string) ([]byte, error)`; `parseIP` is
`net.ParseIP` (`[]` being `nil`). -/
def find0 (parseIP : String → List Nat) (db : reader) (addr : String) :
    Option (List Nat × Option Err) :=
  let ipv := parseIP addr
  let searched : Option (Int × Option Err) ⊕ Err :=
    match To4 ipv with
    | some ip =>
      if !IsIPv4Support db then Sum.inr Err.ErrNoSupportIPv4
      else Sum.inl (search db ip 32)
    | none =>
      match To16 ipv with
      | some ip =>
        if !IsIPv6Support db then Sum.inr Err.ErrNoSupportIPv6
        else Sum.inl (search db ip 128)
      | none => Sum.inr Err.ErrIPFormat
  match searched with
  | Sum.inr e => some ([], some e)
  | Sum.inl none => none
  | Sum.inl (some (node, err)) =>
    if err ≠ none ∨ node < 0 then some ([], err)
    else
      match resolve db node with
      | none => none
      | some (_, some e) => some ([], some e)
      | some (body, none) => some (body, none)

/-- `func (db *reader) find1(addr, language string) ([]string, error)`. -/
def find1 (parseIP : String → List Nat) (db : reader) (addr language : String) :
    Option (List (List Nat) × Option Err) :=
  match db.meta.Languages.lookup language with
  | none => some ([], some Err.ErrNoSupportLanguage)
  | some off =>
    match find0 parseIP db addr with
    | none => none
    | some (_, some e) => some ([], some e)
    | some (body, none) =>
      let tmp := splitTab body
      let hi := wrap64 (off + (db.meta.Fields.length : Int))
      if hi > (tmp.length : Int) then some ([], some Err.ErrDatabaseError)
      else
        match sliceCap tmp off hi with
        | none => none
        | some r => some (r, none)

/-- `func (db *reader) Find(addr, language string) ([]string, error)`. -/
def Find (parseIP : String → List Nat) (db : reader) (addr language : String) :
    Option (List (List Nat) × Option Err) :=
  find1 parseIP db addr language

/-- The assignment `info[key] = v` on a Go `map[string]string`, kept as an
association list with one pair for each key. -/
def mapSet (info : List (String × List Nat)) (key : String) (v : List Nat) :
    List (String × List Nat) :=
  (key, v) :: info.filter (fun p => p.1 != key)

/-- The loop `for k, v := range data { info[db.meta.Fields[k]] = v }` of
`FindMap`, at index `k` with the values still to visit; `none` is the panic of
an index out of range in `db.meta.Fields[k]`. -/
def FindMapLoop (fields : List String) :
    List (List Nat) → Nat → List (String × List Nat) → Option (List (String × List Nat))
  | [], _, info => some info
  | v :: rest, k, info =>
    match fields[k]? with
    | none => none
    | some f => FindMapLoop fields rest (k + 1) (mapSet info f v)

/-- `func (db *reader) FindMap(addr, language string) (map[string]string, error)`;
a `nil` map is `[]`. -/
def FindMap (parseIP : String → List Nat) (db : reader) (addr language : String) :
    Option (List (String × List Nat) × Option Err) :=
  match find1 parseIP db addr language with
  | none => none
  | some (_, some e) => some ([], some e)
  | some (data, none) =>
    match FindMapLoop db.meta.Fields data 0 [] with
    | none => none
    | some info => some (info, none)

/-! ## Construction -/

/-- The loop `for i := 0; i < 96 && node < db.nodeCount; i++` of `newReader`,
with `rem` iterations left; the result is the final `node`. -/
def v4walk (db : reader) : Nat → Nat → Int → Option Int
  | 0, _, node => some node
  | rem + 1, i, node =>
    if node < db.nodeCount then
      match readNode db node (if i ≥ 80 then 1 else 0) with
      | none => none
      | some n => v4walk db rem (i + 1) n
    else some node

/-- `func newReader(name string, obj interface{}) (*reader, error)` for a file
that exists and is read in full: `file` is its content, `slack` the unused
tail of the buffer `ioutil.ReadFile` returned, `unmarshal` is `json.Unmarshal`
into a `MetaData`. -/
def newReader (unmarshal : List Nat → Option MetaData) (file slack : List Nat) :
    Option (Option reader × Option Err) :=
  let fileSize : Int := file.length
  if fileSize < 4 then some (none, some Err.ErrFileSize)
  else
    let metaLength : Int := Uint32 (file.take 4)
    if fileSize < 4 + metaLength then some (none, some Err.ErrFileSize)
    else
      match unmarshal ((file.drop 4).take metaLength.toNat) with
      | none => some (none, some Err.ErrJSON)
      | some m =>
        if m.Languages.length = 0 ∨ m.Fields.length = 0 then
          some (none, some Err.ErrMetaData)
        else if fileSize ≠ wrap64 (4 + metaLength + m.TotalSize) then
          some (none, some Err.ErrFileSize)
        else
          let db : reader :=
            { fileSize := fileSize, nodeCount := m.NodeCount, v4offset := 0, meta := m,
              data := file.drop (4 + metaLength).toNat, slack := slack }
          match v4walk db 96 0 0 with
          | none => none
          | some node => some (some { db with v4offset := node }, none)

/-- The reader `newReader` has built when it starts the walk (the composite
literal `db := &reader{...}`), for a file whose descriptor decoded to `m`. -/
def readerBeforeWalk (file : List Nat) (m : MetaData) (slack : List Nat) : reader :=
  { fileSize := (file.length : Int), nodeCount := m.NodeCount, v4offset := 0, meta := m,
    data := file.drop ((4 : Int) + ((Uint32 (file.take 4) : Nat) : Int)).toNat,
    slack := slack }

/-! ## Range export -/

/-- One line printed by `writeTXT`: the values of `laststart` and `lastend`
(printed through `quad`), the printed fields, and as a ghost the leaf
`lastnode` the line was resolved from. -/
structure Line where
  start : Int
  stop : Int
  fields : List (List Nat)
  node : Int
  deriving DecidableEq, Repr

/-- The four numbers `byte(x>>24), byte(x>>16), byte(x>>8), byte(x)` that
`writeTXT` prints for an address value `x`. -/
def quad (x : Int) : List Nat :=
  [(x / 2 ^ 24 % 256).toNat, (x / 2 ^ 16 % 256).toNat, (x / 2 ^ 8 % 256).toNat,
    (x % 256).toNat]

/-- How a run of `writeTXT` stops: `ret e` is `return e` (`none` for `nil`),
`panic` a run-time panic, `fuel` the exhaustion of the model's step budget. -/
inductive Halt
  | ret (e : Option Err)
  | panic
  | fuel
  deriving DecidableEq, Repr

/-- Outcome of the inner loop `for i := uint(0); i <= bitCount; i++` of
`writeTXT` up to its `break`: `leaf i node` when `node > db.nodeCount` is met
at index `i`, `panic` for a run-time panic, `through` when the loop runs out
of indices without a `break`. -/
inductive Scan
  | leaf (i : Nat) (node : Int)
  | panic
  | through
  deriving DecidableEq, Repr

/-- The traversal part of the inner loop of `writeTXT`, with `rem` iterations
left, at loop index `i` and current `node`. -/
def scan (db : reader) (ip : List Nat) : Nat → Nat → Int → Scan
  | 0, _, _ => Scan.through
  | rem + 1, i, node =>
    if node > db.nodeCount then Scan.leaf i node
    else
      match ip[i >>> 3]? with
      | none => Scan.panic
      | some b =>
        match readNode db node (ipBit b i) with
        | none => Scan.panic
        | some n => scan db ip rem (i + 1) n

/-- The expression
`end>>(bitCount-i)<<(bitCount-i) + 1 << (bitCount-i) - 1` with Go's operator
precedence (shifts bind tighter than `+` and `-`); the cursor is nonnegative
and below `2^33`, so the 64-bit operations are exact. -/
def blockEnd (end_ : Int) (bitCount i : Nat) : Int :=
  end_ / 2 ^ (bitCount - i) * 2 ^ (bitCount - i) + 1 * 2 ^ (bitCount - i) - 1

/-- Go's `x << k` on an `int64` (for `k < 64`): the product wrapped to 64 bits. -/
def shl64 (x : Int) (k : Nat) : Int := wrap64 (x * 2 ^ k)

/-- Go's `x >> k` on an `int64`: the arithmetic shift. -/
def shr64 (x : Int) (k : Nat) : Int := x >>> k

/-- The expression of `blockEnd` with every operation carried out on 64-bit
integers, as Go evaluates it on `end int64`. -/
def blockEnd64 (end_ : Int) (bitCount i : Nat) : Int :=
  wrap64 (wrap64 (shl64 (shr64 end_ (bitCount - i)) (bitCount - i) + shl64 1 (bitCount - i)) - 1)

/-- The local variables of `writeTXT` that live across iterations of the
outer loop. -/
structure Cursor where
  start : Int
  end_ : Int
  laststart : Int
  lastend : Int
  lastnode : Int
  deriving DecidableEq, Repr

/-- The outer loop `for end=0; end<(2<<bitCount); ` of `writeTXT`, run for at
most `fuel` iterations: the lines printed from this state on, and how the run
stops. -/
def writeTXTLoop (db : reader) (language : String) : Nat → Cursor → List Line × Halt
  | 0, _ => ([], Halt.fuel)
  | fuel + 1, c =>
    if ¬ c.end_ < 2 * 2 ^ 32 then ([], Halt.ret none)
    else
      let ip := PutUint32 (c.end_ % 2 ^ 32).toNat
      match scan db ip (32 + 1) 0 db.v4offset with
      | Scan.panic => ([], Halt.panic)
      | Scan.through => writeTXTLoop db language fuel c
      | Scan.leaf i node =>
        let e := blockEnd c.end_ 32 i
        if c.lastnode = db.v4offset then
          writeTXTLoop db language fuel { c with lastend := e, lastnode := node, end_ := e + 1 }
        else if c.lastnode = node then
          writeTXTLoop db language fuel { c with lastend := e, lastnode := node, end_ := e + 1 }
        else
          match resolve db c.lastnode with
          | none => ([], Halt.panic)
          | some (body, _) =>
            match db.meta.Languages.lookup language with
            | none => ([], Halt.ret (some Err.ErrNoSupportLanguage))
            | some off =>
              let tmp := splitTab body
              let hi := wrap64 (off + (db.meta.Fields.length : Int))
              if hi > (tmp.length : Int) then ([], Halt.ret (some Err.ErrDatabaseError))
              else
                match sliceCap tmp off hi with
                | none => ([], Halt.panic)
                | some fs =>
                  let rest := writeTXTLoop db language fuel
                    { start := c.lastend + 1, end_ := e + 1, laststart := c.lastend + 1,
                      lastend := e, lastnode := node }
                  ({ start := c.laststart, stop := c.lastend, fields := fs,
                     node := c.lastnode } :: rest.1, rest.2)

/-- `func (db *reader) writeTXT(language string) (error)`: the printed lines
and the way the run stops.  The cursor grows by at least one in every
iteration that continues, so `2^33 + 1` iterations are never used up. -/
def writeTXT (db : reader) (language : String) : List Line × Halt :=
  writeTXTLoop db language (2 ^ 33 + 1)
    { start := 0, end_ := 0, laststart := 0, lastend := 0, lastnode := db.v4offset }

/-- The values of the cursor `end` at the successive evaluations of the loop
condition `end<(2<<bitCount)` of `writeTXT`, for at most `fuel` iterations (the
same control flow as `writeTXTLoop`, observing the cursor instead of the
printed lines). -/
def writeTXTCursors (db : reader) (language : String) : Nat → Cursor → List Int
  | 0, _ => []
  | fuel + 1, c =>
    c.end_ ::
      (if ¬ c.end_ < 2 * 2 ^ 32 then []
      else
        let ip := PutUint32 (c.end_ % 2 ^ 32).toNat
        match scan db ip (32 + 1) 0 db.v4offset with
        | Scan.panic => []
        | Scan.through => writeTXTCursors db language fuel c
        | Scan.leaf i node =>
          let e := blockEnd c.end_ 32 i
          if c.lastnode = db.v4offset then
            writeTXTCursors db language fuel
              { c with lastend := e, lastnode := node, end_ := e + 1 }
          else if c.lastnode = node then
            writeTXTCursors db language fuel
              { c with lastend := e, lastnode := node, end_ := e + 1 }
          else
            match resolve db c.lastnode with
            | none => []
            | some (body, _) =>
              match db.meta.Languages.lookup language with
              | none => []
              | some off =>
                let tmp := splitTab body
                let hi := wrap64 (off + (db.meta.Fields.length : Int))
                if hi > (tmp.length : Int) then []
                else
                  match sliceCap tmp off hi with
                  | none => []
                  | some _ =>
                    writeTXTCursors db language fuel
                      { start := c.lastend + 1, end_ := e + 1, laststart := c.lastend + 1,
                        lastend := e, lastnode := node })

/-! ## The path of an address, in the words of the specification -/

/-- Bit `i` of an address, most significant bit first:
`(ip[i/8] >> (7 - i%8)) & 1`; `none` when `ip` has no byte `i/8`. -/
def msbBit (ip : List Nat) (i : Nat) : Option Nat :=
  match ip[i / 8]? with
  | none => none
  | some b => some ((b >>> (7 - i % 8)) % 2)

/-- The node value reached from `start` after following the first `k` bits of
`ip` through the node table; `none` when a node entry on the way lies outside
the buffer. -/
def pathNode (db : reader) (ip : List Nat) (start : Int) : Nat → Option Int
  | 0 => some start
  | k + 1 =>
    match pathNode db ip start k with
    | none => none
    | some n =>
      match msbBit ip k with
      | none => none
      | some bit => readNode db n bit

/-- The node value the construction walk holds after `k` levels, in the words
of the specification: from node 0, the 0-bit child for levels 0-79 and the
1-bit child for levels 80-95; `none` when an entry lies outside the buffer. -/
def walkNode (db : reader) : Nat → Option Int
  | 0 => some 0
  | k + 1 =>
    match walkNode db k with
    | none => none
    | some n => readNode db n (if k ≥ 80 then 1 else 0)

/-- The 16-byte IPv4-mapped form `::ffff:a` of a 4-byte address `a`: ten bytes
`0x00`, two bytes `0xff`, then `a`. -/
def v4mapped (a : List Nat) : List Nat :=
  [0, 0, 0, 0, 0, 0, 0, 0, 0, 0, 255, 255] ++ a

/-! ## Invariants of the range export -/

/-- What holds of a printed line: its leaf pointer is nonnegative, every
address value of its range reaches that leaf by the traversal of `writeTXT`,
and its fields are the language's slice of the tab-split text that `resolve`
returned for the leaf. -/
def LineFound (db : reader) (language : String) (l : Line) : Prop :=
  0 ≤ l.node ∧
  (∀ a : Int, l.start ≤ a → a ≤ l.stop →
    ∃ i, scan db (PutUint32 (a % 2 ^ 32).toNat) (32 + 1) 0 db.v4offset
      = Scan.leaf i l.node) ∧
  ∃ body e off, resolve db l.node = some (body, e) ∧
    db.meta.Languages.lookup language = some off ∧
    ¬ wrap64 (off + (db.meta.Fields.length : Int)) > ((splitTab body).length : Int) ∧
    sliceCap (splitTab body) off (wrap64 (off + (db.meta.Fields.length : Int)))
      = some l.fields

/-- What holds of the variables of `writeTXT` at the head of the outer loop:
the cursor is nonnegative; while `lastnode` is still `v4offset` nothing is
pending (or `v4offset` is itself a leaf); otherwise the pending range
`[laststart, lastend]` ends right before the cursor and all its address values
reach the leaf `lastnode`. -/
def CursorOK (db : reader) (c : Cursor) : Prop :=
  0 ≤ c.end_ ∧
  (c.lastnode = db.v4offset → c.end_ ≤ c.laststart ∨ db.nodeCount < db.v4offset) ∧
  (c.lastnode ≠ db.v4offset →
    0 ≤ c.lastnode ∧ c.lastend + 1 = c.end_ ∧
    ∀ a : Int, c.laststart ≤ a → a ≤ c.lastend →
      ∃ i, scan db (PutUint32 (a % 2 ^ 32).toNat) (32 + 1) 0 db.v4offset
        = Scan.leaf i c.lastnode)

/-! ## Example databases

A small IPv4 database in the file layout of `newReader`: node 0 loops on its
0-child and leads by its 1-child into a chain of 15 nodes that ends in node 16,
so that the 96-step walk of `newReader` arrives at node 16; node 16 has the
children `a` (addresses `0.0.0.0/1`) and `b` (addresses `128.0.0.0/1`). -/

/-- The 17 node entries of the example trie. -/
def exampleNodes (a b : Nat) : List (Nat × Nat) :=
  [(0, 1)] ++ (List.range 15).map (fun k => (0, k + 2)) ++ [(a, b)]

/-- The body of the example file: the node table followed by the record area
`recs`. -/
def exampleData (a b : Nat) (recs : List Nat) : List Nat :=
  (exampleNodes a b).flatMap (fun p => PutUint32 p.1 ++ PutUint32 p.2) ++ recs

/-- A record area with one unused byte, the record `CN` at offset 1 (leaf
pointer 18 when `nodeCount = 17`) and the record `US` at offset 5 (leaf pointer
22). -/
def exampleRecords : List Nat := [0, 0, 2, 67, 78, 0, 2, 85, 83]

/-- Metadata with the single field `country` and the language `EN` at offset 0. -/
def exampleMeta (ipVersion : Nat) (nodeCount totalSize : Int) : MetaData :=
  { Build := 0, IPVersion := ipVersion, Languages := [("EN", 0)], NodeCount := nodeCount,
    TotalSize := totalSize, Fields := ["country"] }

/-- A file image: the 4-byte length, a descriptor block of `metaLength` bytes
and the body. -/
def exampleFile (metaLength : Nat) (data : List Nat) : List Nat :=
  PutUint32 metaLength ++ List.replicate metaLength 32 ++ data

/-- The reader `newReader` builds from `exampleFile metaLength data` when the
descriptor decodes to `exampleMeta ipVersion nodeCount data.length` and the
walk ends in `v4offset`. -/
def exampleReader (ipVersion : Nat) (nodeCount v4offset : Int) (metaLength : Nat)
    (data slack : List Nat) : reader :=
  { fileSize := (4 + metaLength + data.length : Nat), nodeCount := nodeCount,
    v4offset := v4offset, meta := exampleMeta ipVersion nodeCount data.length,
    data := data, slack := slack }

/-- The spare bytes of the read buffer in the examples: 512 zero bytes, the
most `ioutil.ReadFile` allocates beyond the size of the file. -/
def exampleSlack : List Nat := List.replicate 512 0

/-- The well-formed example: IPv4 only, leaves `CN` and `US`. -/
def exampleDB : reader :=
  exampleReader 1 17 16 2 (exampleData 18 22 exampleRecords) exampleSlack

/-- A stand-in for `net.ParseIP` on the address strings used in the examples. -/
def exampleParseIP (s : String) : List Nat :=
  if s = "0.0.0.0" then List.replicate 10 0 ++ [255, 255, 0, 0, 0, 0]
  else if s = "128.0.0.0" then List.replicate 10 0 ++ [255, 255, 128, 0, 0, 0]
  else if s = "::1" then List.replicate 15 0 ++ [1]
  else []

/-- A database whose descriptor announces 1000 nodes although the body holds
17: the 0-child of node 16 is the node index 500, far outside the buffer. -/
def exampleDangling : reader :=
  exampleReader 1 1000 16 2 (exampleData 500 22 exampleRecords) exampleSlack

/-- A database with a 600-byte descriptor whose leaf for `0.0.0.0/1` is the
pointer 581: its record offset `581 - 17 + 17*8 = 700` lies past the 145-byte
body and below the file size 749. -/
def exampleLongMeta : reader :=
  exampleReader 1 17 16 600 (exampleData 581 22 exampleRecords) exampleSlack

/-- The example with the IPv4 bit of `ip_version` cleared. -/
def exampleV6Only : reader :=
  exampleReader 2 17 16 2 (exampleData 18 22 exampleRecords) exampleSlack

/-- The example with the text `CN` in both records. -/
def exampleTwins : reader :=
  exampleReader 1 17 16 2 (exampleData 18 22 [0, 0, 2, 67, 78, 0, 2, 67, 78]) exampleSlack

/-- The example with the leaf of `0.0.0.0/1` pointing to offset 5119, past the
end of the file. -/
def exampleCorrupt : reader :=
  exampleReader 1 17 16 2 (exampleData 5000 22 exampleRecords) exampleSlack

/-- The example with one leaf for the whole IPv4 space. -/
def exampleOneLeaf : reader :=
  exampleReader 1 17 16 2 (exampleData 18 18 exampleRecords) exampleSlack

/-- The example with the 0-child of node 0 replaced by the leaf 18: the
construction walk meets a leaf at its first step. -/
def exampleEarlyLeaf : reader :=
  exampleReader 1 17 18 2 (PutUint32 18 ++ (exampleData 18 22 exampleRecords).drop 4)
    exampleSlack

/-- The example with the pointer `17 = nodeCount` as 0-child of node 16. -/
def exampleAtCount : reader :=
  exampleReader 1 17 16 2 (exampleData 17 22 exampleRecords) exampleSlack

/-- A descriptor that decodes, with an empty language map and a `total_size`
of 999 that does not match the 145-byte body. -/
def exampleMetaNoLanguage : MetaData :=
  { Build := 0, IPVersion := 1, Languages := [], NodeCount := 17, TotalSize := 999,
    Fields := ["country"] }

/-- The reader under construction for a file whose descriptor announces 1000
nodes and whose node 0 has the 0-child 500: the second step of the walk reads
entry 500, at byte offset 4000 of a 145-byte body. -/
def exampleWalkOut : reader :=
  exampleReader 1 1000 0 2 (PutUint32 500 ++ (exampleData 18 22 exampleRecords).drop 4)
    exampleSlack

/-- The example with node 16 as its own 0-child: the address `0.0.0.0` stays on
node 16 and reaches no leaf within 32 bits. -/
def exampleSelfLoop : reader :=
  exampleReader 1 17 16 2 (exampleData 16 22 exampleRecords) exampleSlack

/-! ## Auxiliary facts -/

theorem wrap64_of_range (x : Int) (h1 : -2 ^ 63 ≤ x) (h2 : x < 2 ^ 63) : wrap64 x = x := by
  unfold wrap64
  omega

theorem wrap64_range (x : Int) : -2 ^ 63 ≤ wrap64 x ∧ wrap64 x < 2 ^ 63 := by
  unfold wrap64
  omega

theorem sliceCap_some {α : Type} (buf : List α) (lo hi : Int) (r : List α)
    (h : sliceCap buf lo hi = some r) :
    0 ≤ lo ∧ lo ≤ hi ∧ hi ≤ (buf.length : Int) ∧
      r = (buf.drop lo.toNat).take (hi - lo).toNat := by
  unfold sliceCap at h
  split at h
  · rename_i hc
    simp only [Option.some.injEq] at h
    exact ⟨hc.1, hc.2.1, hc.2.2, h.symm⟩
  · simp at h

theorem sliceCap_length {α : Type} (buf : List α) (lo hi : Int) (r : List α)
    (h : sliceCap buf lo hi = some r) : (r.length : Int) = hi - lo := by
  obtain ⟨h0, h1, h2, rfl⟩ := sliceCap_some buf lo hi r h
  simp only [List.length_take, List.length_drop]
  omega

/-! ## Lookup of one address -/

/-- C4: for every database, every address string and every language code that
is not a key of `meta.Languages`, `Find` fails with `ErrNoSupportLanguage`. -/
theorem Find_unregistered_language (parseIP : String → List Nat) (db : reader)
    (addr language : String) (h : db.meta.Languages.lookup language = none) :
    Find parseIP db addr language = some ([], some Err.ErrNoSupportLanguage) := by
  simp [Find, find1, h]

theorem Find_unregistered_language_witness :
    Find exampleParseIP exampleDB "1.2.3.4" "ZH" = some ([], some Err.ErrNoSupportLanguage) :=
  Find_unregistered_language exampleParseIP exampleDB "1.2.3.4" "ZH" (by decide)

/-- C5: for a registered language, an address with a 4-byte form on a database
whose `IPVersion` has bit 0 clear fails with `ErrNoSupportIPv4`, an address with
only a 16-byte form on a database whose `IPVersion` has bit 1 clear fails with
`ErrNoSupportIPv6`, and an address with neither form fails with `ErrIPFormat`;
each outcome is the same for every content `d`, `s` of the buffer, so no node
is read. -/
theorem Find_family_errors (parseIP : String → List Nat) (db : reader)
    (addr language : String) (off : Int)
    (hl : db.meta.Languages.lookup language = some off) (d s : List Nat) :
    (∀ ip, To4 (parseIP addr) = some ip → db.meta.IPVersion.testBit 0 = false →
        Find parseIP { db with data := d, slack := s } addr language
          = some ([], some Err.ErrNoSupportIPv4)) ∧
    (∀ ip, To4 (parseIP addr) = none → To16 (parseIP addr) = some ip →
        db.meta.IPVersion.testBit 1 = false →
        Find parseIP { db with data := d, slack := s } addr language
          = some ([], some Err.ErrNoSupportIPv6)) ∧
    (To4 (parseIP addr) = none → To16 (parseIP addr) = none →
        Find parseIP { db with data := d, slack := s } addr language
          = some ([], some Err.ErrIPFormat)) := by
  refine ⟨?_, ?_, ?_⟩
  · intro ip h4 hb
    have h1 : db.meta.IPVersion % 2 ≠ 1 := by
      simpa [Nat.testBit_zero] using hb
    simp [Find, find1, hl, find0, h4, IsIPv4Support, IPv4, h1]
  · intro ip h4 h16 hb
    have h2 : db.meta.IPVersion &&& 2 ≠ 2 := by
      intro h
      have := congrArg (fun x => x.testBit 1) h
      simp [Nat.testBit_and, hb] at this
      exact absurd this (by decide)
    simp [Find, find1, hl, find0, h4, h16, IsIPv6Support, IPv6, h2]
  · intro h4 h16
    simp [Find, find1, hl, find0, h4, h16]

theorem Find_family_errors_witness :
    Find exampleParseIP { exampleDB with data := [], slack := [] } "::1" "EN"
      = some ([], some Err.ErrNoSupportIPv6) :=
  (Find_family_errors exampleParseIP exampleDB "::1" "EN" 0 (by decide) [] []).2.1
    (List.replicate 15 0 ++ [1]) (by decide) (by decide) (by decide)

/-- C1, as the code behaves: whenever `Find` returns (no run-time panic), it
returns an error with a nil value, or the language is registered with offset
`off`, `find0` resolved a record `body` for the address, and the value is the
sub-slice `[off, off + len(Fields))` of the tab-split text of `body`, of length
exactly `len(meta.Fields)`. -/
theorem Find_returns_fields (parseIP : String → List Nat) (db : reader)
    (addr language : String) (r : List (List Nat) × Option Err)
    (hn : db.meta.Fields.length < 2 ^ 63)
    (h : Find parseIP db addr language = some r) :
    (∃ e, r = ([], some e)) ∨
    (∃ off body, db.meta.Languages.lookup language = some off ∧
      find0 parseIP db addr = some (body, none) ∧ 0 ≤ off ∧
      off.toNat + db.meta.Fields.length ≤ (splitTab body).length ∧
      r = (((splitTab body).drop off.toNat).take db.meta.Fields.length, none) ∧
      r.1.length = db.meta.Fields.length) := by
  unfold Find find1 at h
  split at h
  · left
    exact ⟨_, (Option.some.inj h).symm⟩
  · rename_i off hoff
    split at h
    · simp at h
    · left
      exact ⟨_, (Option.some.inj h).symm⟩
    · rename_i body hbody
      simp only at h
      split at h
      · left
        exact ⟨_, (Option.some.inj h).symm⟩
      · rename_i hle
        split at h
        · simp at h
        · rename_i fs hfs
          right
          obtain ⟨h0, h1, h2, hr⟩ := sliceCap_some _ _ _ _ hfs
          have hw := wrap64_range (off + (db.meta.Fields.length : Int))
          have hhi : wrap64 (off + (db.meta.Fields.length : Int))
              = off + (db.meta.Fields.length : Int) := by
            unfold wrap64 at h1 hw ⊢
            omega
          rw [hhi] at h2 hr
          have hlen : (off + (db.meta.Fields.length : Int) - off).toNat
              = db.meta.Fields.length := by omega
          rw [hlen] at hr
          refine ⟨off, body, hoff, hbody, h0, by omega, ?_, ?_⟩
          · rw [← Option.some.inj h, hr]
          · rw [← Option.some.inj h, hr]
            simp only [List.length_take, List.length_drop]
            omega

theorem Find_returns_fields_witness :
    (∃ e, (([[67, 78]], none) : List (List Nat) × Option Err) = ([], some e)) ∨
    (∃ off body, exampleDB.meta.Languages.lookup "EN" = some off ∧
      find0 exampleParseIP exampleDB "0.0.0.0" = some (body, none) ∧ 0 ≤ off ∧
      off.toNat + exampleDB.meta.Fields.length ≤ (splitTab body).length ∧
      (([[67, 78]], none) : List (List Nat) × Option Err)
        = (((splitTab body).drop off.toNat).take exampleDB.meta.Fields.length, none) ∧
      (([[67, 78]], none) : List (List Nat) × Option Err).1.length
        = exampleDB.meta.Fields.length) :=
  Find_returns_fields exampleParseIP exampleDB "0.0.0.0" "EN" ([[67, 78]], none)
    (by decide) (by decide)

/-- C1, the claim as stated fails: the database `exampleDangling` is loaded by
`newReader` without error, and `Find` on `0.0.0.0` with the registered language
`EN` neither returns an error nor a sequence: the traversal reads node 500 at
byte offset 4000 of a 145-byte body and the run panics. -/
theorem Find_panics_on_loaded_database :
    newReader (fun _ => some (exampleMeta 1 1000 145))
        (exampleFile 2 (exampleData 500 22 exampleRecords)) exampleSlack
      = some (some exampleDangling, none) ∧
    exampleDangling.meta.Languages.lookup "EN" = some 0 ∧
    Find exampleParseIP exampleDangling "0.0.0.0" "EN" = none := by
  refine ⟨?_, ?_, ?_⟩ <;> decide

/-! ## Search -/

theorem ipBit_eq (b i : Nat) (hb : b < 256) : ipBit b i = (b >>> (7 - i % 8)) % 2 := by
  have h1 : 255 &&& b = b := by
    rw [Nat.and_comm]
    exact Nat.and_pow_two_sub_one_of_lt_two_pow (n := 8) hb
  unfold ipBit
  rw [h1, Nat.and_one_is_mod]

theorem msbBit_eq (ip : List Nat) (i : Nat) (hb : ∀ b ∈ ip, b < 256)
    (hi : i < 8 * ip.length) :
    ∃ b, ip[i >>> 3]? = some b ∧ msbBit ip i = some (ipBit b i) := by
  have h8 : i >>> 3 = i / 8 := by simp [Nat.shiftRight_eq_div_pow]
  have hlt : i / 8 < ip.length := by omega
  refine ⟨ip[i / 8], ?_, ?_⟩
  · rw [h8]
    exact List.getElem?_eq_getElem hlt
  · unfold msbBit
    rw [List.getElem?_eq_getElem hlt]
    simp only
    rw [ipBit_eq _ _ (hb _ (List.getElem_mem hlt))]

theorem pathNode_succ (db : reader) (ip : List Nat) (start : Int) (i : Nat) (node : Int)
    (b : Nat) (hp : pathNode db ip start i = some node)
    (hm : msbBit ip i = some (ipBit b i)) :
    pathNode db ip start (i + 1) = readNode db node (ipBit b i) := by
  simp [pathNode, hp, hm]

theorem searchLoop_leaf (db : reader) (ip : List Nat) (start : Int)
    (hb : ∀ b ∈ ip, b < 256) :
    ∀ (rem i : Nat) (node : Int), pathNode db ip start i = some node →
      i + rem ≤ 8 * ip.length →
      ∀ (k : Nat) (n : Int), i ≤ k → k ≤ i + rem → pathNode db ip start k = some n →
        db.nodeCount < n →
        (∀ j, i ≤ j → j < k → ∃ m, pathNode db ip start j = some m ∧ m ≤ db.nodeCount) →
        searchLoop db ip rem i node = some n := by
  intro rem
  induction rem with
  | zero =>
    intro i node hp _ k n hik hk hpk _ _
    have : k = i := by omega
    subst this
    rw [hp] at hpk
    simpa [searchLoop] using hpk
  | succ rem ih =>
    intro i node hp hlen k n hik hk hpk hn hpre
    unfold searchLoop
    by_cases hnode : node > db.nodeCount
    · rw [if_pos hnode]
      by_cases hki : k = i
      · subst hki
        rw [hp] at hpk
        exact hpk
      · obtain ⟨m, hm, hmle⟩ := hpre i (le_refl _) (by omega)
        rw [hp] at hm
        cases hm
        omega
    · rw [if_neg hnode]
      have hki : k ≠ i := by
        intro hki
        subst hki
        rw [hp] at hpk
        cases hpk
        exact hnode hn
      obtain ⟨b, hb1, hb2⟩ := msbBit_eq ip i hb (by omega)
      have hs := pathNode_succ db ip start i node b hp hb2
      rw [hb1]
      simp only
      cases hr : readNode db node (ipBit b i) with
      | none =>
        rw [hr] at hs
        by_cases hk1 : k = i + 1
        · subst hk1
          rw [hs] at hpk
          cases hpk
        · obtain ⟨m, hm, _⟩ := hpre (i + 1) (by omega) (by omega)
          rw [hs] at hm
          cases hm
      | some n1 =>
        rw [hr] at hs
        simp only
        exact ih (i + 1) n1 hs (by omega) k n (by omega) (by omega) hpk hn
          (fun j hj1 hj2 => hpre j (by omega) hj2)

theorem searchLoop_inner (db : reader) (ip : List Nat) (start : Int)
    (hb : ∀ b ∈ ip, b < 256) :
    ∀ (rem i : Nat) (node : Int), pathNode db ip start i = some node →
      i + rem ≤ 8 * ip.length →
      (∀ k, i ≤ k → k ≤ i + rem →
        ∃ m, pathNode db ip start k = some m ∧ m ≤ db.nodeCount) →
      ∃ m, searchLoop db ip rem i node = some m ∧ m ≤ db.nodeCount := by
  intro rem
  induction rem with
  | zero =>
    intro i node hp _ hall
    obtain ⟨m, hm, hmle⟩ := hall i (le_refl _) (by omega)
    rw [hp] at hm
    cases hm
    exact ⟨node, by simp [searchLoop], hmle⟩
  | succ rem ih =>
    intro i node hp hlen hall
    obtain ⟨m, hm, hmle⟩ := hall i (le_refl _) (by omega)
    rw [hp] at hm
    cases hm
    unfold searchLoop
    rw [if_neg (by omega)]
    obtain ⟨b, hb1, hb2⟩ := msbBit_eq ip i hb (by omega)
    have hs := pathNode_succ db ip start i node b hp hb2
    obtain ⟨m1, hm1, _⟩ := hall (i + 1) (by omega) (by omega)
    rw [hb1]
    simp only
    rw [← hs, hm1]
    simp only
    exact ih (i + 1) m1 hm1 (by omega) (fun k hk1 hk2 => hall k (by omega) (by omega))

/-- C3, as the code behaves: `search` starts at `v4offset` when `bitCount` is
32 and at node 0 otherwise and follows the address bits most significant bit
first.  If the first `k <= bitCount` steps of the path stay on node values not
above `nodeCount` (so their entries are read inside the buffer) and step `k`
reaches a value `n > nodeCount`, it returns `(n, nil)`; if all `bitCount` steps
are read inside the buffer and none exceeds `nodeCount`, it returns
`(-1, ErrDataNotExists)`; and whatever it returns is of one of these two forms,
a successful result being strictly greater than `nodeCount`. -/
theorem search_first_leaf (db : reader) (ip : List Nat) (bitCount : Nat)
    (hlen : bitCount ≤ 8 * ip.length) (hb : ∀ b ∈ ip, b < 256) :
    (∀ (k : Nat) (n : Int), k ≤ bitCount →
      pathNode db ip (if bitCount = 32 then db.v4offset else 0) k = some n →
      db.nodeCount < n →
      (∀ j, j < k → ∃ m, pathNode db ip (if bitCount = 32 then db.v4offset else 0) j
          = some m ∧ m ≤ db.nodeCount) →
      search db ip bitCount = some (n, none)) ∧
    ((∀ k, k ≤ bitCount → ∃ m, pathNode db ip (if bitCount = 32 then db.v4offset else 0) k
          = some m ∧ m ≤ db.nodeCount) →
      search db ip bitCount = some (-1, some Err.ErrDataNotExists)) ∧
    (∀ n e, search db ip bitCount = some (n, e) →
      (e = none ∧ db.nodeCount < n) ∨ (n = -1 ∧ e = some Err.ErrDataNotExists)) := by
  refine ⟨?_, ?_, ?_⟩
  · intro k n hk hp hn hpre
    have h := searchLoop_leaf db ip (if bitCount = 32 then db.v4offset else 0) hb
      bitCount 0 _ rfl (by omega) k n (Nat.zero_le _) (by omega) hp hn
      (fun j _ hj => hpre j hj)
    unfold search
    simp only [h]
    rw [if_pos (by omega)]
  · intro hall
    obtain ⟨m, hm, hmle⟩ := searchLoop_inner db ip
      (if bitCount = 32 then db.v4offset else 0) hb bitCount 0 _ rfl (by omega)
      (fun k _ hk => hall k (by omega))
    unfold search
    simp only [hm]
    rw [if_neg (by omega)]
  · intro n e h
    unfold search at h
    simp only at h
    generalize searchLoop db ip bitCount 0 (if bitCount = 32 then db.v4offset else 0) = r at h
    cases r with
    | none => simp at h
    | some node =>
      simp only at h
      split at h
      · rename_i hgt
        cases h
        exact Or.inl ⟨rfl, hgt⟩
      · cases h
        exact Or.inr ⟨rfl, rfl⟩

theorem search_first_leaf_witness :
    search exampleDB [0, 0, 0, 0] 32 = some (18, none) :=
  (search_first_leaf exampleDB [0, 0, 0, 0] 32 (by decide) (by decide)).1 1 18
    (by decide) (by decide) (by decide)
    (fun j hj => ⟨16, by
      have h0 : j = 0 := by omega
      subst h0
      decide, by decide⟩)

/-- C3, the claim as stated fails: in `exampleDangling` the path of `0.0.0.0`
starts at `v4offset = 16`, reaches the node value 500 (not above
`nodeCount = 1000`) and has no further node, because entry 500 lies outside the
buffer; no value above `nodeCount` occurs, yet `search` does not return
`(-1, ErrDataNotExists)`: the run panics. -/
theorem search_panics_on_dangling_node :
    exampleDangling.v4offset = 16 ∧ exampleDangling.nodeCount = 1000 ∧
    pathNode exampleDangling [0, 0, 0, 0] 16 1 = some 500 ∧
    pathNode exampleDangling [0, 0, 0, 0] 16 2 = none ∧
    search exampleDangling [0, 0, 0, 0] 32 = none := by
  refine ⟨?_, ?_, ?_, ?_, ?_⟩ <;> decide

/-! ## Record resolution -/

/-- C2, the code at a failing input: `exampleLongMeta` is loaded by `newReader`,
`search` resolves `0.0.0.0` to the leaf 581, whose record offset 700 is past
`len(data) = 145` but below `fileSize = 749`; `resolve` passes its first check
and slices `data[700:702]`, beyond even the 512 spare bytes of the buffer: the
run panics instead of returning `ErrDatabaseError`. -/
theorem resolve_slices_past_data :
    newReader (fun _ => some (exampleMeta 1 17 145))
        (exampleFile 600 (exampleData 581 22 exampleRecords)) exampleSlack
      = some (some exampleLongMeta, none) ∧
    search exampleLongMeta [0, 0, 0, 0] 32 = some (581, none) ∧
    exampleLongMeta.data.length = 145 ∧ exampleLongMeta.fileSize = 749 ∧
    resolve exampleLongMeta 581 = none := by
  refine ⟨?_, ?_, ?_, ?_, ?_⟩ <;> decide

/-! ## Range export: the code on the examples -/

/-- C7, the claim as stated fails: on `exampleV6Only` `writeTXT` prints the
range `0.0.0.0` to `127.255.255.255` with the fields `CN`, and `Find` on
`0.0.0.0` fails with `ErrNoSupportIPv4`. -/
theorem writeTXT_range_not_found :
    newReader (fun _ => some (exampleMeta 2 17 145))
        (exampleFile 2 (exampleData 18 22 exampleRecords)) exampleSlack
      = some (some exampleV6Only, none) ∧
    exampleV6Only.meta.Languages.lookup "EN" = some 0 ∧
    (writeTXT exampleV6Only "EN").1.head?
      = some { start := 0, stop := 2147483647, fields := [[67, 78]], node := 18 } ∧
    To4 (exampleParseIP "0.0.0.0") = some (PutUint32 0) ∧
    Find exampleParseIP exampleV6Only "0.0.0.0" "EN"
      = some ([], some Err.ErrNoSupportIPv4) := by
  refine ⟨?_, ?_, ?_, ?_, ?_⟩ <;> decide

/-- C8, the claim as stated fails: on `exampleTwins` the first two printed
lines are adjacent ranges with the same decoded fields. -/
theorem writeTXT_adjacent_equal_fields :
    newReader (fun _ => some (exampleMeta 1 17 145))
        (exampleFile 2 (exampleData 18 22 [0, 0, 2, 67, 78, 0, 2, 67, 78])) exampleSlack
      = some (some exampleTwins, none) ∧
    (writeTXT exampleTwins "EN").1.take 2
      = [{ start := 0, stop := 2147483647, fields := [[67, 78]], node := 18 },
         { start := 2147483648, stop := 4294967295, fields := [[67, 78]], node := 22 }] := by
  refine ⟨?_, ?_⟩ <;> decide

/-- C9, the code at a failing input: on `exampleCorrupt` the resolution of the
pending leaf 5000 fails with `ErrDatabaseError`, and `writeTXT` prints a line
for that leaf with one empty field, goes on, and returns `nil`. -/
theorem writeTXT_ignores_resolve_error :
    newReader (fun _ => some (exampleMeta 1 17 145))
        (exampleFile 2 (exampleData 5000 22 exampleRecords)) exampleSlack
      = some (some exampleCorrupt, none) ∧
    resolve exampleCorrupt 5000 = some ([], some Err.ErrDatabaseError) ∧
    writeTXT exampleCorrupt "EN"
      = ([{ start := 0, stop := 2147483647, fields := [[]], node := 5000 },
          { start := 2147483648, stop := 4294967295, fields := [[85, 83]], node := 22 },
          { start := 4294967296, stop := 6442450943, fields := [[]], node := 5000 }],
         Halt.ret none) := by
  refine ⟨?_, ?_, ?_⟩ <;> decide

/-- C10, the code at a failing input: `ZH` is not a key of the language map of
`exampleOneLeaf`, and `writeTXT` prints nothing and returns `nil`. -/
theorem writeTXT_unregistered_returns_nil :
    newReader (fun _ => some (exampleMeta 1 17 145))
        (exampleFile 2 (exampleData 18 18 exampleRecords)) exampleSlack
      = some (some exampleOneLeaf, none) ∧
    exampleOneLeaf.meta.Languages.lookup "ZH" = none ∧
    writeTXT exampleOneLeaf "ZH" = ([], Halt.ret none) := by
  refine ⟨?_, ?_, ?_⟩ <;> decide

/-! ## Range export: adjacent lines -/

theorem scan_leaf_gt (db : reader) (ip : List Nat) :
    ∀ (rem i : Nat) (node : Int) (j : Nat) (n : Int),
      scan db ip rem i node = Scan.leaf j n → db.nodeCount < n := by
  intro rem
  induction rem with
  | zero =>
    intro i node j n h
    simp [scan] at h
  | succ rem ih =>
    intro i node j n h
    unfold scan at h
    split at h
    · rename_i hgt
      cases h
      exact hgt
    · split at h
      · cases h
      · split at h
        · cases h
        · exact ih _ _ _ _ h

theorem scan_start_leaf (db : reader) (ip : List Nat) (rem : Nat) (node : Int)
    (h : db.nodeCount < node) : scan db ip (rem + 1) 0 node = Scan.leaf 0 node := by
  unfold scan
  rw [if_pos h]

theorem writeTXTLoop_sentinel_nil (db : reader) (language : String)
    (hv : db.nodeCount < db.v4offset) :
    ∀ (fuel : Nat) (c : Cursor), c.lastnode = db.v4offset →
      (writeTXTLoop db language fuel c).1 = [] := by
  intro fuel
  induction fuel with
  | zero =>
    intro c _
    rfl
  | succ fuel ih =>
    intro c hc
    unfold writeTXTLoop
    split
    · rfl
    · simp only [scan_start_leaf db _ 32 db.v4offset hv]
      exact ih _ rfl

theorem writeTXTLoop_chain (db : reader) (language : String) :
    ∀ (fuel : Nat) (c : Cursor),
      List.Chain' (fun l1 l2 : Line => l1.node ≠ l2.node)
        (writeTXTLoop db language fuel c).1 ∧
      (c.lastnode ≠ db.v4offset →
        ∀ l, (writeTXTLoop db language fuel c).1.head? = some l → l.node = c.lastnode) := by
  intro fuel
  induction fuel with
  | zero =>
    intro c
    simp [writeTXTLoop]
  | succ fuel ih =>
    intro c
    unfold writeTXTLoop
    split
    · simp
    · simp only
      split
      · simp
      · exact ih c
      · rename_i i node hscan
        have hgt := scan_leaf_gt db _ _ _ _ _ _ hscan
        split
        · rename_i hsent
          exact ⟨(ih _).1, fun hne => absurd hsent hne⟩
        · rename_i hsent
          split
          · rename_i hsame
            refine ⟨(ih _).1, fun _ l hl => ?_⟩
            have h2 := (ih _).2 (by simp only; rw [← hsame]; exact hsent) l hl
            simp only at h2
            rw [h2, hsame]
          · rename_i hdiff
            split
            · simp
            · split
              · simp
              · split
                · simp
                · split
                  · simp
                  · rename_i fs hfs
                    simp only
                    refine ⟨?_, fun _ l hl => ?_⟩
                    · rw [List.chain'_cons']
                      refine ⟨?_, (ih _).1⟩
                      intro y hy
                      by_cases hnv : node = db.v4offset
                      · rw [writeTXTLoop_sentinel_nil db language (by rw [← hnv]; exact hgt)
                          fuel _ (by simpa using hnv)] at hy
                        simp at hy
                      · have h2 := fun hne => (ih _).2 hne y (Option.mem_def.mp hy)
                        have h3 := h2 hnv
                        simp only at h3
                        rw [h3]
                        exact hdiff
                    · simp only [List.head?_cons, Option.some.injEq] at hl
                      rw [← hl]

/-- C8, as the code behaves: any two lines printed consecutively by `writeTXT`
come from different leaf pointers (the merge of adjacent blocks is maximal with
respect to the leaf node reached, not to the decoded fields). -/
theorem writeTXT_adjacent_nodes_differ (db : reader) (language : String) :
    List.Chain' (fun l1 l2 : Line => l1.node ≠ l2.node) (writeTXT db language).1 :=
  (writeTXTLoop_chain db language _ _).1

/-! ## Range export: every printed range is found again -/

theorem ipBit_mod (x j : Nat) :
    ipBit (x % 256) j = x % 256 / 2 ^ (7 - j % 8) % 2 := by
  rw [ipBit_eq _ _ (Nat.mod_lt _ (by norm_num)), Nat.shiftRight_eq_div_pow]

theorem PutUint32_bit (v j : Nat) (hj : j < 32) :
    ∃ b, (PutUint32 v)[j >>> 3]? = some b ∧ ipBit b j = v / 2 ^ (31 - j) % 2 := by
  interval_cases j <;>
    simp [PutUint32, ipBit_mod, Nat.shiftRight_eq_div_pow] <;> omega

theorem top_bit_eq (u v i j : Nat) (hi : i ≤ 32) (hj : j < i)
    (h : u / 2 ^ (32 - i) = v / 2 ^ (32 - i)) :
    u / 2 ^ (31 - j) % 2 = v / 2 ^ (31 - j) % 2 := by
  have hs : 31 - j = (32 - i) + (i - 1 - j) := by omega
  rw [hs, pow_add, ← Nat.div_div_eq_div_mul, ← Nat.div_div_eq_div_mul, h]

theorem readNode_nonneg (db : reader) (node index n : Int)
    (h : readNode db node index = some n) : 0 ≤ n := by
  unfold readNode at h
  simp only at h
  split at h
  · cases h
  · cases h
    exact Int.natCast_nonneg _

theorem scan_index (db : reader) (ip : List Nat) :
    ∀ (rem j : Nat) (node : Int) (i : Nat) (n : Int),
      scan db ip rem j node = Scan.leaf i n → j ≤ i ∧ i < j + rem := by
  intro rem
  induction rem with
  | zero =>
    intro j node i n h
    simp [scan] at h
  | succ rem ih =>
    intro j node i n h
    unfold scan at h
    split at h
    · cases h
      omega
    · split at h
      · cases h
      · split at h
        · cases h
        · have := ih _ _ _ _ h
          omega

theorem scan_leaf_origin (db : reader) (ip : List Nat) :
    ∀ (rem j : Nat) (node : Int) (i : Nat) (n : Int),
      scan db ip rem j node = Scan.leaf i n → n = node ∨ 0 ≤ n := by
  intro rem
  induction rem with
  | zero =>
    intro j node i n h
    simp [scan] at h
  | succ rem ih =>
    intro j node i n h
    unfold scan at h
    split at h
    · cases h
      exact Or.inl rfl
    · split at h
      · cases h
      · split at h
        · cases h
        · rename_i n1 hr
          rcases ih _ _ _ _ h with h1 | h1
          · right
            rw [h1]
            exact readNode_nonneg _ _ _ _ hr
          · exact Or.inr h1

theorem scan_searchLoop (db : reader) (ip : List Nat) :
    ∀ (rem j : Nat) (node : Int) (i : Nat) (n : Int),
      scan db ip (rem + 1) j node = Scan.leaf i n → searchLoop db ip rem j node = some n := by
  intro rem
  induction rem with
  | zero =>
    intro j node i n h
    unfold scan at h
    split at h
    · cases h
      simp [searchLoop]
    · split at h
      · cases h
      · split at h
        · cases h
        · simp [scan] at h
  | succ rem ih =>
    intro j node i n h
    unfold scan at h
    unfold searchLoop
    split at h
    · rename_i hgt
      cases h
      rw [if_pos hgt]
    · rename_i hgt
      rw [if_neg hgt]
      split at h
      · cases h
      · rename_i b hb
        split at h
        · cases h
        · rename_i n1 hr
          try rw [hr]
          exact ih _ _ _ _ h

theorem scan_top_bits (db : reader) (u v : Nat) :
    ∀ (rem j : Nat) (node : Int) (i : Nat) (n : Int), i ≤ 32 →
      u / 2 ^ (32 - i) = v / 2 ^ (32 - i) →
      scan db (PutUint32 u) rem j node = Scan.leaf i n →
      scan db (PutUint32 v) rem j node = Scan.leaf i n := by
  intro rem
  induction rem with
  | zero =>
    intro j node i n _ _ h
    simp [scan] at h
  | succ rem ih =>
    intro j node i n hi huv h
    unfold scan at h ⊢
    split at h
    · rename_i hgt
      rw [if_pos hgt]
      exact h
    · rename_i hgt
      rw [if_neg hgt]
      split at h
      · cases h
      · rename_i bu hbu
        split at h
        · cases h
        · rename_i n1 hr
          have hji := (scan_index db _ _ _ _ _ _ h).1
          obtain ⟨b1, hb1, hb1v⟩ := PutUint32_bit u j (by omega)
          obtain ⟨b2, hb2, hb2v⟩ := PutUint32_bit v j (by omega)
          rw [hbu] at hb1
          cases hb1
          have hbit : ipBit b2 j = ipBit bu j := by
            rw [hb1v, hb2v]
            exact (top_bit_eq u v i j hi (by omega) huv).symm
          rw [hb2]
          simp only
          rw [hbit, hr]
          simp only
          exact ih _ _ _ _ hi huv h

theorem blockEnd_ge (e0 : Int) (i : Nat) : e0 ≤ blockEnd e0 32 i := by
  unfold blockEnd
  have hp : (0 : Int) < 2 ^ (32 - i) := by positivity
  have h1 := Int.ediv_add_emod e0 (2 ^ (32 - i))
  have h2 := Int.emod_lt_of_pos e0 hp
  have h3 : (2 : Int) ^ (32 - i) * (e0 / 2 ^ (32 - i)) = e0 / 2 ^ (32 - i) * 2 ^ (32 - i) :=
    mul_comm _ _
  omega

theorem block_top_bits (e0 a : Int) (i : Nat) (hi : i ≤ 32) (h0 : 0 ≤ e0) (h1 : e0 ≤ a)
    (h2 : a ≤ blockEnd e0 32 i) :
    (e0 % 2 ^ 32).toNat / 2 ^ (32 - i) = (a % 2 ^ 32).toNat / 2 ^ (32 - i) := by
  obtain ⟨E, rfl⟩ := Int.eq_ofNat_of_zero_le h0
  obtain ⟨A, rfl⟩ := Int.eq_ofNat_of_zero_le (le_trans h0 h1)
  have hE : ((E : Int) % 2 ^ 32).toNat = E % 2 ^ 32 := by
    have : ((E : Int) % 2 ^ 32) = ((E % 2 ^ 32 : Nat) : Int) := by push_cast; rfl
    rw [this, Int.toNat_natCast]
  have hA : ((A : Int) % 2 ^ 32).toNat = A % 2 ^ 32 := by
    have : ((A : Int) % 2 ^ 32) = ((A % 2 ^ 32 : Nat) : Int) := by push_cast; rfl
    rw [this, Int.toNat_natCast]
  rw [hE, hA]
  have hpow : 2 ^ 32 = 2 ^ (32 - i) * 2 ^ i := by
    rw [← pow_add]
    congr 1
    omega
  rw [hpow, Nat.mod_mul_right_div_self, Nat.mod_mul_right_div_self]
  congr 1
  have hEA : E ≤ A := by exact_mod_cast h1
  have hb : (A : Int) ≤ ((E / 2 ^ (32 - i) * 2 ^ (32 - i) + 1 * 2 ^ (32 - i) - 1 : Nat) : Int) := by
    have hpos : 1 ≤ 1 * 2 ^ (32 - i) := by
      have : 0 < 2 ^ (32 - i) := by positivity
      omega
    unfold blockEnd at h2
    push_cast [Nat.cast_sub (le_trans hpos (Nat.le_add_left _ _))]
    exact h2
  have hb' : A ≤ E / 2 ^ (32 - i) * 2 ^ (32 - i) + 1 * 2 ^ (32 - i) - 1 := by exact_mod_cast hb
  have hP : 0 < 2 ^ (32 - i) := by positivity
  symm
  apply Nat.div_eq_of_lt_le
  · exact le_trans (Nat.div_mul_le_self E _) hEA
  · have : (E / 2 ^ (32 - i)).succ * 2 ^ (32 - i)
        = E / 2 ^ (32 - i) * 2 ^ (32 - i) + 1 * 2 ^ (32 - i) := by
      rw [Nat.succ_mul, one_mul]
    rw [this]
    omega

theorem writeTXTLoop_lines_found (db : reader) (language : String) :
    ∀ (fuel : Nat) (c : Cursor), CursorOK db c →
      ∀ l ∈ (writeTXTLoop db language fuel c).1, LineFound db language l := by
  intro fuel
  induction fuel with
  | zero =>
    intro c _ l hl
    simp [writeTXTLoop] at hl
  | succ fuel ih =>
    intro c hc l hl
    unfold writeTXTLoop at hl
    split at hl
    · simp at hl
    · simp only at hl
      split at hl
      · simp at hl
      · exact ih c hc l hl
      · rename_i i node hscan
        obtain ⟨hend, hsent, hpend⟩ := hc
        have hgt := scan_leaf_gt db _ _ _ _ _ _ hscan
        have hi : i ≤ 32 := by
          have := (scan_index db _ _ _ _ _ _ hscan).2
          omega
        have horig := scan_leaf_origin db _ _ _ _ _ _ hscan
        have hge := blockEnd_ge c.end_ i
        have hblock : ∀ a : Int, c.end_ ≤ a → a ≤ blockEnd c.end_ 32 i →
            ∃ i', scan db (PutUint32 (a % 2 ^ 32).toNat) (32 + 1) 0 db.v4offset
              = Scan.leaf i' node := fun a ha1 ha2 =>
          ⟨i, scan_top_bits db _ _ _ _ _ _ _ hi (block_top_bits c.end_ a i hi hend ha1 ha2) hscan⟩
        split at hl
        · rename_i hs
          refine ih _ ⟨?_, ?_, ?_⟩ l hl
          · simp only
            omega
          · intro hnv
            simp only at hnv ⊢
            right
            rw [← hnv]
            exact hgt
          · intro hnv
            simp only at hnv ⊢
            refine ⟨?_, by trivial, ?_⟩
            · rcases horig with h | h
              · exact absurd h hnv
              · exact h
            · intro a ha1 ha2
              rcases hsent hs with h | h
              · exact hblock a (by omega) ha2
              · exfalso
                rw [scan_start_leaf db _ 32 _ h] at hscan
                cases hscan
                exact hnv rfl
        · rename_i hs
          obtain ⟨hn0, hle, hall⟩ := hpend hs
          split at hl
          · rename_i hsame
            refine ih _ ⟨?_, ?_, ?_⟩ l hl
            · simp only
              omega
            · intro hnv
              simp only at hnv
              exact absurd (hsame.trans hnv) hs
            · intro _
              simp only
              refine ⟨by rw [← hsame]; exact hn0, by trivial, ?_⟩
              intro a ha1 ha2
              by_cases hcase : a ≤ c.lastend
              · rw [← hsame]
                exact hall a ha1 hcase
              · exact hblock a (by omega) ha2
          · rename_i hdiff
            split at hl
            · simp at hl
            · rename_i body e hres
              split at hl
              · simp at hl
              · rename_i off hoff
                split at hl
                · simp at hl
                · rename_i hhi
                  split at hl
                  · simp at hl
                  · rename_i fs hfs
                    simp only [List.mem_cons] at hl
                    rcases hl with hl | hl
                    · subst hl
                      exact ⟨hn0, hall, body, e, off, hres, hoff, hhi, hfs⟩
                    · refine ih _ ⟨?_, ?_, ?_⟩ l hl
                      · simp only
                        omega
                      · intro hnv
                        simp only at hnv ⊢
                        right
                        rw [← hnv]
                        exact hgt
                      · intro hnv
                        simp only at hnv ⊢
                        refine ⟨?_, by trivial, ?_⟩
                        · rcases horig with h | h
                          · exact absurd h hnv
                          · exact h
                        · intro a ha1 ha2
                          exact hblock a (by omega) ha2

/-- C7, as the code behaves: for every database that supports IPv4, every
language, and every line printed by `writeTXT` with cursor bounds `[s, e]`
(printed modulo `2^32`) and fields `F` whose leaf record `resolve` returns
without error: `Find` on every address whose 4-byte form is the 32-bit value of
some `a` with `s <= a <= e` returns `F` without error. -/
theorem writeTXT_line_found (parseIP : String → List Nat) (db : reader)
    (language : String) (l : Line) (hl : l ∈ (writeTXT db language).1)
    (h4 : IsIPv4Support db = true) (body : List Nat)
    (hres : resolve db l.node = some (body, none))
    (a : Int) (ha1 : l.start ≤ a) (ha2 : a ≤ l.stop) (addr : String)
    (haddr : To4 (parseIP addr) = some (PutUint32 (a % 2 ^ 32).toNat)) :
    Find parseIP db addr language = some (l.fields, none) := by
  obtain ⟨hn0, hall, body1, e, off, hres1, hoff, hhi, hfs⟩ :=
    writeTXTLoop_lines_found db language _ _
      ⟨le_refl _, fun _ => Or.inl (le_refl _), fun h => absurd rfl h⟩ l hl
  obtain ⟨i, hscan⟩ := hall a ha1 ha2
  have hsl := scan_searchLoop db _ 32 0 _ i _ hscan
  have hgt := scan_leaf_gt db _ _ _ _ _ _ hscan
  rw [hres] at hres1
  cases hres1
  have hf0 : find0 parseIP db addr = some (body, none) := by
    generalize PutUint32 (a % 2 ^ 32).toNat = ip at haddr hsl
    simp [find0, haddr, h4, search, hsl, hgt, hres, not_lt.mpr hn0]
  unfold Find find1
  rw [hoff]
  simp only [hf0]
  rw [if_neg hhi, hfs]

theorem writeTXT_line_found_witness :
    Find exampleParseIP exampleDB "128.0.0.0" "EN" = some ([[85, 83]], none) :=
  writeTXT_line_found exampleParseIP exampleDB "EN"
    { start := 2147483648, stop := 4294967295, fields := [[85, 83]], node := 22 }
    (by decide) (by decide) [85, 83] (by decide) 2147483648 (by decide) (by decide)
    "128.0.0.0" (by decide)

/-! ## The example database is total on IPv4 -/

theorem searchLoop_one_step (db : reader) (ip : List Nat) (rem i : Nat) (node n : Int)
    (b : Nat) (h1 : ¬ node > db.nodeCount) (hb : ip[i >>> 3]? = some b)
    (hr : readNode db node (ipBit b i : Nat) = some n) (hn : n > db.nodeCount) :
    searchLoop db ip (rem + 1 + 1) i node = some n := by
  unfold searchLoop
  rw [if_neg h1, hb]
  simp only
  rw [hr]
  simp only
  unfold searchLoop
  rw [if_pos hn]

theorem search_of_searchLoop (db : reader) (ip : List Nat) (n : Int)
    (hsl : searchLoop db ip 32 0 db.v4offset = some n) (hn : db.nodeCount < n) :
    search db ip 32 = some (n, none) := by
  unfold search
  simp only [if_true, hsl]
  rw [if_pos hn]

theorem exampleDB_every_address_found (v : Nat) :
    search exampleDB (PutUint32 v) 32 = some (18, none) ∨
      search exampleDB (PutUint32 v) 32 = some (22, none) := by
  obtain ⟨b, hb, hbit⟩ := PutUint32_bit v 0 (by omega)
  have hc : exampleDB.nodeCount = 17 := rfl
  have key : ∀ n : Int, readNode exampleDB 16 (ipBit b 0 : Nat) = some n →
      17 < n → search exampleDB (PutUint32 v) 32 = some (n, none) := by
    intro n hr hn
    have hsl : searchLoop exampleDB (PutUint32 v) (30 + 1 + 1) 0 16 = some n :=
      searchLoop_one_step exampleDB (PutUint32 v) 30 0 16 n b (by rw [hc]; omega) hb hr
        (by rw [hc]; exact hn)
    exact search_of_searchLoop exampleDB (PutUint32 v) n hsl (by rw [hc]; exact hn)
  have h0 : readNode exampleDB 16 ((0 : Nat) : Int) = some 18 := by decide
  have h1 : readNode exampleDB 16 ((1 : Nat) : Int) = some 22 := by decide
  have hcases : ipBit b 0 = 0 ∨ ipBit b 0 = 1 := by
    rw [hbit]
    omega
  rcases hcases with h | h
  · left
    exact key 18 (by rw [h]; exact h0) (by omega)
  · right
    exact key 22 (by rw [h]; exact h1) (by omega)

/-- C6, the code at a failing input: `exampleDB` is loaded by `newReader`, every
IPv4 address reaches a leaf in it and `EN` is registered; `writeTXT` prints
three lines, `0.0.0.0` to `127.255.255.255`, `128.0.0.0` to
`255.255.255.255`, and again `0.0.0.0` to `127.255.255.255` (cursor values from
`2^32` on): the loop runs up to `2^33`, and the range pending at the end is
never printed. -/
theorem writeTXT_example_lines :
    newReader (fun _ => some (exampleMeta 1 17 145))
        (exampleFile 2 (exampleData 18 22 exampleRecords)) exampleSlack
      = some (some exampleDB, none) ∧
    (∀ v : Nat, ∃ n, search exampleDB (PutUint32 v) 32 = some (n, none)) ∧
    writeTXT exampleDB "EN"
      = ([{ start := 0, stop := 2147483647, fields := [[67, 78]], node := 18 },
          { start := 2147483648, stop := 4294967295, fields := [[85, 83]], node := 22 },
          { start := 4294967296, stop := 6442450943, fields := [[67, 78]], node := 18 }],
         Halt.ret none) ∧
    (writeTXT exampleDB "EN").1.map (fun l => (quad l.start, quad l.stop))
      = [([0, 0, 0, 0], [127, 255, 255, 255]), ([128, 0, 0, 0], [255, 255, 255, 255]),
         ([0, 0, 0, 0], [127, 255, 255, 255])] := by
  refine ⟨by decide, ?_, by decide, by decide⟩
  intro v
  rcases exampleDB_every_address_found v with h | h
  · exact ⟨18, h⟩
  · exact ⟨22, h⟩

/-! ## The upper bound of a block -/

theorem shr_eq_div (m : Int) (n : Nat) : m >>> n = m / 2 ^ n := by
  rw [Int.shiftRight_eq_div_pow]
  norm_cast

theorem block_arith (e0 : Int) (i : Nat) (h0 : 0 ≤ e0) :
    0 ≤ e0 / 2 ^ (32 - i) ∧ e0 / 2 ^ (32 - i) * 2 ^ (32 - i) ≤ e0 ∧
    e0 < e0 / 2 ^ (32 - i) * 2 ^ (32 - i) + 2 ^ (32 - i) ∧
    (0 : Int) < 2 ^ (32 - i) ∧ (2 : Int) ^ (32 - i) ≤ 2 ^ 32 := by
  have hP : (0 : Int) < 2 ^ (32 - i) := by positivity
  have hPle : (2 : Int) ^ (32 - i) ≤ 2 ^ 32 :=
    pow_le_pow_right₀ (by norm_num) (by omega)
  have hq1 : 2 ^ (32 - i) * (e0 / 2 ^ (32 - i)) ≤ e0 := Int.mul_ediv_self_le (ne_of_gt hP)
  have hq2 : e0 < 2 ^ (32 - i) * (e0 / 2 ^ (32 - i)) + 2 ^ (32 - i) :=
    Int.lt_mul_ediv_self_add hP
  have hq0 : 0 ≤ e0 / 2 ^ (32 - i) := Int.ediv_nonneg h0 (le_of_lt hP)
  rw [mul_comm] at hq1 hq2
  exact ⟨hq0, hq1, hq2, hP, hPle⟩

theorem blockEnd64_eq (e0 : Int) (i : Nat) (h0 : 0 ≤ e0) (h1 : e0 < 2 ^ 33) :
    blockEnd64 e0 32 i = blockEnd e0 32 i := by
  obtain ⟨hq0, hq1, hq2, hP, hPle⟩ := block_arith e0 i h0
  unfold blockEnd64 blockEnd shl64 shr64
  rw [shr_eq_div]
  generalize e0 / 2 ^ (32 - i) * 2 ^ (32 - i) = m at hq1 hq2 ⊢
  generalize (2 : Int) ^ (32 - i) = P at hP hPle hq2 ⊢
  have e1 : wrap64 m = m := wrap64_of_range _ (by omega) (by omega)
  have e2 : wrap64 (1 * P) = 1 * P := wrap64_of_range _ (by omega) (by omega)
  rw [e1, e2, wrap64_of_range (m + 1 * P) (by omega) (by omega),
    wrap64_of_range (m + 1 * P - 1) (by omega) (by omega)]

/-- C18: for `0 <= end < 2^32` and `i <= 32` the expression
`end>>(bitCount-i)<<(bitCount-i) + 1 << (bitCount-i) - 1` with `bitCount = 32`,
evaluated on 64-bit integers with Go's precedence, is
`((end >> (32-i)) << (32-i)) + 2^(32-i) - 1`; this value `e` satisfies
`end <= e < 2^32`, `e >> (32-i) = end >> (32-i)`, its low `32-i` bits are all
ones, and every value with the same top bits as `end` is at most `e`. -/
theorem blockEnd_largest (end_ : Int) (i : Nat) (h0 : 0 ≤ end_) (h1 : end_ < 2 ^ 32)
    (hi : i ≤ 32) :
    blockEnd64 end_ 32 i = (end_ >>> (32 - i)) * 2 ^ (32 - i) + 2 ^ (32 - i) - 1 ∧
    blockEnd64 end_ 32 i = blockEnd end_ 32 i ∧
    end_ ≤ blockEnd64 end_ 32 i ∧ blockEnd64 end_ 32 i < 2 ^ 32 ∧
    blockEnd64 end_ 32 i >>> (32 - i) = end_ >>> (32 - i) ∧
    blockEnd64 end_ 32 i % 2 ^ (32 - i) = 2 ^ (32 - i) - 1 ∧
    ∀ x : Int, x >>> (32 - i) = end_ >>> (32 - i) → x ≤ blockEnd64 end_ 32 i := by
  have h33 : end_ < 2 ^ 33 := by omega
  obtain ⟨hq0, hq1, hq2, hP, hPle⟩ := block_arith end_ i h0
  have heq := blockEnd64_eq end_ i h0 h33
  have hpow : (2 : Int) ^ i * 2 ^ (32 - i) = 2 ^ 32 := by
    rw [← pow_add]
    congr 1
    omega
  have hqlt : end_ / 2 ^ (32 - i) < 2 ^ i := by
    rw [Int.ediv_lt_iff_lt_mul hP, hpow]
    exact h1
  have hq3 : (end_ / 2 ^ (32 - i) + 1) * 2 ^ (32 - i) ≤ 2 ^ 32 := by
    rw [← hpow]
    exact mul_le_mul_of_nonneg_right (by omega) (le_of_lt hP)
  have hform : blockEnd end_ 32 i
      = (2 ^ (32 - i) - 1) + end_ / 2 ^ (32 - i) * 2 ^ (32 - i) := by
    unfold blockEnd
    ring
  have hdiv : blockEnd end_ 32 i / 2 ^ (32 - i) = end_ / 2 ^ (32 - i) := by
    rw [hform, Int.add_mul_ediv_right _ _ (ne_of_gt hP),
      Int.ediv_eq_zero_of_lt (by omega) (by omega), zero_add]
  have hmod : blockEnd end_ 32 i % 2 ^ (32 - i) = 2 ^ (32 - i) - 1 := by
    rw [hform, Int.add_mul_emod_self, Int.emod_eq_of_lt (by omega) (by omega)]
  rw [heq]
  simp only [shr_eq_div]
  refine ⟨?_, trivial, blockEnd_ge end_ i, ?_, hdiv, hmod, ?_⟩
  · unfold blockEnd
    ring
  · rw [add_mul, one_mul] at hq3
    unfold blockEnd
    omega
  · intro x hx
    have hx1 : x < 2 ^ (32 - i) * (x / 2 ^ (32 - i)) + 2 ^ (32 - i) :=
      Int.lt_mul_ediv_self_add hP
    rw [hx, mul_comm] at hx1
    unfold blockEnd
    omega

theorem blockEnd_largest_witness :
    blockEnd64 167772160 32 8 = 184549375 :=
  ((blockEnd_largest 167772160 8 (by decide) (by decide) (by decide)).2.1).trans (by decide)

/-! ## Addresses that share their leading bits -/

theorem pathNode_agree (db : reader) (a b : List Nat) (start : Int) (i : Nat)
    (hagree : ∀ j, j < i → msbBit a j = msbBit b j) :
    ∀ k, k ≤ i → pathNode db b start k = pathNode db a start k := by
  intro k
  induction k with
  | zero =>
    intro _
    rfl
  | succ k ih =>
    intro hk
    unfold pathNode
    rw [ih (by omega), hagree k (by omega)]

/-- C17: for every database, every `i <= 32` and every two 4-byte addresses `a`
and `b` that agree on their first `i` bits (most significant first): if the
traversal of `a` from `v4offset` first reaches a node value exceeding
`nodeCount` after exactly `i` bits, then `search(a, 32)` and `search(b, 32)`
both return that leaf. -/
theorem search_same_leaf_on_shared_bits (db : reader) (a b : List Nat) (i : Nat) (n : Int)
    (hi : i ≤ 32) (ha : a.length = 4) (hb : b.length = 4)
    (hab : ∀ x ∈ a, x < 256) (hbb : ∀ x ∈ b, x < 256)
    (hagree : ∀ j, j < i → msbBit a j = msbBit b j)
    (hp : pathNode db a db.v4offset i = some n) (hn : db.nodeCount < n)
    (hpre : ∀ j, j < i → ∃ m, pathNode db a db.v4offset j = some m ∧ m ≤ db.nodeCount) :
    search db a 32 = some (n, none) ∧ search db b 32 = some (n, none) := by
  have hpb := pathNode_agree db a b db.v4offset i hagree
  constructor
  · exact search_of_searchLoop db a n
      (searchLoop_leaf db a db.v4offset hab 32 0 _ rfl (by omega) i n (Nat.zero_le _)
        (by omega) hp hn (fun j _ hj => hpre j hj)) hn
  · exact search_of_searchLoop db b n
      (searchLoop_leaf db b db.v4offset hbb 32 0 _ rfl (by omega) i n (Nat.zero_le _)
        (by omega) (by rw [hpb i (le_refl _)]; exact hp) hn
        (fun j _ hj => by rw [hpb j (by omega)]; exact hpre j hj)) hn

theorem search_same_leaf_on_shared_bits_witness :
    search exampleDB [0, 0, 0, 0] 32 = some (18, none) ∧
      search exampleDB [1, 2, 3, 4] 32 = some (18, none) :=
  search_same_leaf_on_shared_bits exampleDB [0, 0, 0, 0] [1, 2, 3, 4] 1 18
    (by decide) (by decide) (by decide) (by decide) (by decide)
    (fun j hj => by
      have h0 : j = 0 := by omega
      subst h0
      decide)
    (by decide) (by decide)
    (fun j hj => ⟨16, by
      have h0 : j = 0 := by omega
      subst h0
      decide, by decide⟩)

/-! ## The construction walk and the IPv4-mapped addresses -/

theorem v4walk_eq_walkNode (db : reader) :
    ∀ (rem i : Nat) (n : Int), walkNode db i = some n →
      (∀ j, i ≤ j → j < i + rem → ∃ m, walkNode db j = some m ∧ m < db.nodeCount) →
      v4walk db rem i n = walkNode db (i + rem) := by
  intro rem
  induction rem with
  | zero =>
    intro i n hw _
    simp [v4walk, hw]
  | succ rem ih =>
    intro i n hw hint
    obtain ⟨m, hm, hlt⟩ := hint i (le_refl _) (by omega)
    rw [hw] at hm
    cases hm
    unfold v4walk
    rw [if_pos hlt]
    have hs : walkNode db (i + 1) = readNode db n (if i ≥ 80 then 1 else 0) := by
      simp [walkNode, hw]
    cases hr : readNode db n (if i ≥ 80 then 1 else 0) with
    | none =>
      simp only
      rw [hr] at hs
      by_cases hrem : rem = 0
      · subst hrem
        exact hs.symm
      · obtain ⟨m1, hm1, _⟩ := hint (i + 1) (by omega) (by omega)
        rw [hs] at hm1
        cases hm1
    | some n1 =>
      simp only
      rw [hr] at hs
      have := ih (i + 1) n1 hs (fun j hj1 hj2 => hint j (by omega) (by omega))
      rw [this]
      congr 1
      omega

theorem v4mapped_bit (a : List Nat) (j : Nat) (hj : j < 96) :
    ∃ b, (v4mapped a)[j >>> 3]? = some b ∧
      ((ipBit b j : Nat) : Int) = if j ≥ 80 then 1 else 0 := by
  interval_cases j <;> simp [v4mapped, ipBit]

theorem searchLoop_v4mapped_shift (db : reader) (a : List Nat) :
    ∀ (rem i : Nat) (node : Int),
      searchLoop db (v4mapped a) rem (96 + i) node = searchLoop db a rem i node := by
  intro rem
  induction rem with
  | zero =>
    intro i node
    simp [searchLoop]
  | succ rem ih =>
    intro i node
    have hq : (96 + i) >>> 3 = 12 + i >>> 3 := by
      simp only [Nat.shiftRight_eq_div_pow]
      omega
    have hget : (v4mapped a)[(96 + i) >>> 3]? = a[i >>> 3]? := by
      rw [hq]
      unfold v4mapped
      rw [List.getElem?_append_right (by simp)]
      simp
    have hbit : ∀ b, ipBit b (96 + i) = ipBit b i := by
      intro b
      unfold ipBit
      have : (96 + i) % 8 = i % 8 := by omega
      rw [this]
    unfold searchLoop
    rw [hget]
    simp only [hbit]
    have hih : ∀ n, searchLoop db (v4mapped a) rem (96 + i + 1) n
        = searchLoop db a rem (i + 1) n := fun n => ih (i + 1) n
    simp only [hih]

theorem searchLoop_v4mapped_walk (db : reader) (a : List Nat)
    (hint : ∀ i, i < 96 → ∃ n, walkNode db i = some n ∧ n < db.nodeCount)
    (hv : walkNode db 96 = some db.v4offset) :
    ∀ (k : Nat), k ≤ 96 → ∀ n, walkNode db (96 - k) = some n →
      searchLoop db (v4mapped a) (k + 32) (96 - k) n
        = searchLoop db (v4mapped a) 32 96 db.v4offset := by
  intro k
  induction k with
  | zero =>
    intro _ n hn
    rw [hv] at hn
    cases hn
    rfl
  | succ k ih =>
    intro hk n hn
    obtain ⟨m, hm, hlt⟩ := hint (96 - (k + 1)) (by omega)
    rw [hn] at hm
    cases hm
    obtain ⟨b, hb1, hb2⟩ := v4mapped_bit a (96 - (k + 1)) (by omega)
    have hnext : 96 - (k + 1) + 1 = 96 - k := by omega
    have hs : walkNode db (96 - k)
        = readNode db n (if 96 - (k + 1) ≥ 80 then 1 else 0) := by
      rw [← hnext, walkNode, hn]
    have hdef : ∃ n1, walkNode db (96 - k) = some n1 := by
      by_cases hk0 : k = 0
      · subst hk0
        exact ⟨_, hv⟩
      · obtain ⟨n1, hn1, _⟩ := hint (96 - k) (by omega)
        exact ⟨n1, hn1⟩
    obtain ⟨n1, hn1⟩ := hdef
    rw [show k + 1 + 32 = (k + 32) + 1 by omega]
    unfold searchLoop
    rw [if_neg (by omega), hb1]
    simp only
    rw [hb2, ← hs, hn1]
    simp only
    rw [hnext]
    exact ih (by omega) n1 hn1

/-- C15: for every database whose `v4offset` is the result of the 96-step
construction walk and in which that walk only takes steps from internal nodes
(each below `nodeCount`), and for every IPv4 address `a`: `search(a, 32)`
returns the same result as `search(m, 128)` for the IPv4-mapped form
`m = ::ffff:a`. -/
theorem search_mapped_eq (db : reader) (a : List Nat)
    (hint : ∀ i, i < 96 → ∃ n, walkNode db i = some n ∧ n < db.nodeCount)
    (hv : v4walk db 96 0 0 = some db.v4offset) :
    search db a 32 = search db (v4mapped a) 128 := by
  have hw : walkNode db 96 = some db.v4offset := by
    rw [← hv]
    exact (v4walk_eq_walkNode db 96 0 0 rfl (fun j _ hj => hint j (by omega))).symm
  have h1 := searchLoop_v4mapped_walk db a hint hw 96 (le_refl _) 0 rfl
  have h2 := searchLoop_v4mapped_shift db a 32 0 db.v4offset
  have h3 : searchLoop db (v4mapped a) 128 0 0 = searchLoop db a 32 0 db.v4offset := by
    rw [← h2]
    exact h1
  have e128 : (if (128 : Nat) = 32 then db.v4offset else 0) = 0 := if_neg (by decide)
  unfold search
  simp only [if_true, e128, h3]

theorem exampleDB_walk_internal :
    ∀ i, i < 96 → ∃ n, walkNode exampleDB i = some n ∧ n < exampleDB.nodeCount := by
  have h : ∀ i, i < 96 →
      (walkNode exampleDB i).any (fun n => decide (n < exampleDB.nodeCount)) = true := by
    decide
  intro i hi
  have hi' := h i hi
  cases hw : walkNode exampleDB i with
  | none =>
    rw [hw] at hi'
    cases hi'
  | some n =>
    rw [hw] at hi'
    exact ⟨n, rfl, by simpa using hi'⟩

theorem search_mapped_eq_witness :
    search exampleDB [128, 0, 0, 1] 32 = search exampleDB (v4mapped [128, 0, 0, 1]) 128 :=
  search_mapped_eq exampleDB [128, 0, 0, 1] exampleDB_walk_internal (by decide)

/-! ## What a successful construction establishes -/

theorem newReader_success (unmarshal : List Nat → Option MetaData) (file slack : List Nat)
    (db : reader) (h : newReader unmarshal file slack = some (some db, none)) :
    ∃ m, unmarshal ((file.drop 4).take ((Uint32 (file.take 4) : Nat) : Int).toNat) = some m ∧
      ¬ (m.Languages.length = 0 ∨ m.Fields.length = 0) ∧
      (file.length : Int) = wrap64 (4 + ((Uint32 (file.take 4) : Nat) : Int) + m.TotalSize) ∧
      ¬ (file.length : Int) < 4 + ((Uint32 (file.take 4) : Nat) : Int) ∧
      db.fileSize = file.length ∧ db.nodeCount = m.NodeCount ∧ db.meta = m ∧
      db.data = file.drop (4 + ((Uint32 (file.take 4) : Nat) : Int)).toNat ∧
      db.slack = slack ∧
      v4walk { db with v4offset := 0 } 96 0 0 = some db.v4offset := by
  unfold newReader at h
  simp only at h
  split at h
  · simp at h
  · split at h
    · simp at h
    · rename_i hL
      split at h
      · simp at h
      · rename_i m hm
        split at h
        · simp at h
        · rename_i hne
          split at h
          · simp at h
          · rename_i hsz
            split at h
            · simp at h
            · rename_i node hwalk
              simp only [Option.some.injEq, Prod.mk.injEq, and_true] at h
              subst h
              exact ⟨m, hm, hne, not_not.mp hsz, hL, rfl, rfl, rfl, rfl, rfl, hwalk⟩

theorem readNode_congr (db1 db2 : reader) (hd : db1.data = db2.data)
    (hs : db1.slack = db2.slack) (node index : Int) :
    readNode db1 node index = readNode db2 node index := by
  unfold readNode
  rw [hd, hs]

theorem walkNode_congr (db1 db2 : reader) (hd : db1.data = db2.data)
    (hs : db1.slack = db2.slack) : ∀ k, walkNode db1 k = walkNode db2 k := by
  intro k
  induction k with
  | zero => rfl
  | succ k ih =>
    unfold walkNode
    rw [ih]
    cases walkNode db2 k with
    | none => rfl
    | some n => exact readNode_congr db1 db2 hd hs _ _

theorem v4walk_first_leaf (db : reader) :
    ∀ (rem i : Nat) (n0 : Int), walkNode db i = some n0 →
      ∀ (k : Nat) (n : Int), i ≤ k → k ≤ i + rem → walkNode db k = some n →
        (k = i + rem ∨ ¬ n < db.nodeCount) →
        (∀ j, i ≤ j → j < k → ∃ m, walkNode db j = some m ∧ m < db.nodeCount) →
        v4walk db rem i n0 = some n := by
  intro rem
  induction rem with
  | zero =>
    intro i n0 h0 k n hik hk hw _ _
    have : k = i := by omega
    subst this
    rw [h0] at hw
    simpa [v4walk] using hw
  | succ rem ih =>
    intro i n0 h0 k n hik hk hw hstop hpre
    unfold v4walk
    by_cases hki : k = i
    · subst hki
      rw [h0] at hw
      cases hw
      rcases hstop with h | h
      · omega
      · rw [if_neg h]
    · obtain ⟨m, hm, hlt⟩ := hpre i (le_refl _) (by omega)
      rw [h0] at hm
      cases hm
      rw [if_pos hlt]
      have hs : walkNode db (i + 1) = readNode db n0 (if i ≥ 80 then 1 else 0) := by
        rw [walkNode, h0]
      have hdef : ∃ n1, walkNode db (i + 1) = some n1 := by
        by_cases hk1 : k = i + 1
        · subst hk1
          exact ⟨n, hw⟩
        · obtain ⟨n1, hn1, _⟩ := hpre (i + 1) (by omega) (by omega)
          exact ⟨n1, hn1⟩
      obtain ⟨n1, hn1⟩ := hdef
      rw [← hs, hn1]
      simp only
      exact ih (i + 1) n1 hn1 k n (by omega) (by omega) hw
        (by rcases hstop with h | h
            · left
              omega
            · exact Or.inr h)
        (fun j hj1 hj2 => hpre j (by omega) hj2)

theorem searchLoop_on_leaf (db : reader) (ip : List Nat) (rem i : Nat) (node : Int)
    (h : db.nodeCount < node) : searchLoop db ip rem i node = some node := by
  cases rem with
  | zero => rfl
  | succ rem =>
    unfold searchLoop
    rw [if_pos h]

/-- C16, as the code behaves: when the construction walk reaches at level
`k <= 96` a node value `n` that is not below `nodeCount`, every level before
holding an internal node, the walk stops and `newReader` sets `v4offset` to
`n`, the value that stopped the walk, not the last internal node; and when `n`
is strictly above `nodeCount`, `search(ip, 32)` returns `(n, nil)` for every
address `ip`. -/
theorem newReader_v4offset_is_leaf (unmarshal : List Nat → Option MetaData)
    (file slack : List Nat) (db : reader)
    (hnew : newReader unmarshal file slack = some (some db, none))
    (k : Nat) (n : Int) (hk : k ≤ 96) (hw : walkNode db k = some n)
    (hleaf : ¬ n < db.nodeCount)
    (hpre : ∀ j, j < k → ∃ m, walkNode db j = some m ∧ m < db.nodeCount) :
    db.v4offset = n ∧
    (db.nodeCount < n → ∀ ip : List Nat, search db ip 32 = some (n, none)) := by
  obtain ⟨m, _, _, _, _, _, _, _, _, _, hwalk⟩ := newReader_success unmarshal file slack db hnew
  have hc := walkNode_congr { db with v4offset := 0 } db rfl rfl
  have h := v4walk_first_leaf { db with v4offset := 0 } 96 0 0 rfl k n (Nat.zero_le _)
    (by omega) (by rw [hc]; exact hw) (Or.inr hleaf)
    (fun j _ hj => by rw [hc]; exact hpre j hj)
  rw [h] at hwalk
  have hv : db.v4offset = n := (Option.some.inj hwalk).symm
  refine ⟨hv, fun hgt ip => ?_⟩
  exact search_of_searchLoop db ip n
    (by rw [hv]; exact searchLoop_on_leaf db ip 32 0 n hgt) hgt

theorem newReader_v4offset_is_leaf_witness :
    exampleEarlyLeaf.v4offset = 18 ∧
    (exampleEarlyLeaf.nodeCount < 18 →
      ∀ ip : List Nat, search exampleEarlyLeaf ip 32 = some (18, none)) :=
  newReader_v4offset_is_leaf (fun _ => some (exampleMeta 1 17 145))
    (exampleFile 2 (PutUint32 18 ++ (exampleData 18 22 exampleRecords).drop 4)) exampleSlack
    exampleEarlyLeaf (by decide) 1 18 (by decide) (by decide) (by decide)
    (fun j hj => ⟨0, by
      have h0 : j = 0 := by omega
      subst h0
      decide, by decide⟩)

/-- C16, the claim as stated fails: in `exampleEarlyLeaf` the walk stands on the
internal node 0 and reads the leaf 18 at its first step; `newReader` stores the
leaf value 18 in `v4offset`, not the last internal node 0. -/
theorem newReader_v4offset_not_last_internal :
    newReader (fun _ => some (exampleMeta 1 17 145))
        (exampleFile 2 (PutUint32 18 ++ (exampleData 18 22 exampleRecords).drop 4))
        exampleSlack
      = some (some exampleEarlyLeaf, none) ∧
    exampleEarlyLeaf.nodeCount = 17 ∧
    walkNode exampleEarlyLeaf 0 = some 0 ∧ walkNode exampleEarlyLeaf 1 = some 18 ∧
    exampleEarlyLeaf.v4offset = 18 := by
  refine ⟨?_, ?_, ?_, ?_, ?_⟩ <;> decide

/-! ## The pointer value `nodeCount` -/

theorem searchLoop_panic (db : reader) (ip : List Nat) (start : Int)
    (hb : ∀ b ∈ ip, b < 256) :
    ∀ (rem i : Nat) (node : Int), pathNode db ip start i = some node →
      i + rem ≤ 8 * ip.length →
      ∀ (k : Nat), i ≤ k → k < i + rem →
        (∀ j, i ≤ j → j ≤ k → ∃ m, pathNode db ip start j = some m ∧ m ≤ db.nodeCount) →
        pathNode db ip start (k + 1) = none →
        searchLoop db ip rem i node = none := by
  intro rem
  induction rem with
  | zero =>
    intro i node _ _ k hik hk _ _
    omega
  | succ rem ih =>
    intro i node hp hlen k hik hk hpre hnone
    obtain ⟨m, hm, hmle⟩ := hpre i (le_refl _) hik
    rw [hp] at hm
    cases hm
    obtain ⟨b, hb1, hb2⟩ := msbBit_eq ip i hb (by omega)
    have hs := pathNode_succ db ip start i node b hp hb2
    unfold searchLoop
    rw [if_neg (by omega), hb1]
    simp only
    by_cases hki : k = i
    · subst hki
      rw [← hs, hnone]
    · obtain ⟨m1, hm1, _⟩ := hpre (i + 1) (by omega) (by omega)
      rw [← hs, hm1]
      simp only
      exact ih (i + 1) m1 hm1 (by omega) k (by omega) (by omega)
        (fun j hj1 hj2 => hpre j (by omega) hj2) hnone

/-- C14, as the code behaves: `search` treats a pointer value as a leaf only
when it is strictly above `nodeCount`.  When the traversal reaches the value
`nodeCount` after `k` steps on values not above `nodeCount`: with no bit left
(`k = bitCount`) `search` returns `(-1, ErrDataNotExists)`; with bits left it
reads the node entry at index `nodeCount` (the first 8 bytes of the record
area) and panics if that entry is outside the buffer, or returns the value read
if that exceeds `nodeCount`; it never returns `nodeCount` as a leaf. -/
theorem search_nodeCount_not_leaf (db : reader) (ip : List Nat) (bitCount k : Nat)
    (hlen : bitCount ≤ 8 * ip.length) (hb : ∀ b ∈ ip, b < 256) (hk : k ≤ bitCount)
    (hp : pathNode db ip (if bitCount = 32 then db.v4offset else 0) k = some db.nodeCount)
    (hpre : ∀ j, j < k → ∃ m, pathNode db ip (if bitCount = 32 then db.v4offset else 0) j
        = some m ∧ m ≤ db.nodeCount) :
    (k = bitCount → search db ip bitCount = some (-1, some Err.ErrDataNotExists)) ∧
    (k < bitCount →
      pathNode db ip (if bitCount = 32 then db.v4offset else 0) (k + 1) = none →
      search db ip bitCount = none) ∧
    (k < bitCount → ∀ n,
      pathNode db ip (if bitCount = 32 then db.v4offset else 0) (k + 1) = some n →
      db.nodeCount < n → search db ip bitCount = some (n, none)) ∧
    (∀ e, search db ip bitCount ≠ some (db.nodeCount, e) ∨
      (db.nodeCount = -1 ∧ e = some Err.ErrDataNotExists)) := by
  have hall : ∀ j, j ≤ k → ∃ m, pathNode db ip (if bitCount = 32 then db.v4offset else 0) j
      = some m ∧ m ≤ db.nodeCount := by
    intro j hj
    by_cases hjk : j = k
    · subst hjk
      exact ⟨_, hp, le_refl _⟩
    · exact hpre j (by omega)
  refine ⟨?_, ?_, ?_, ?_⟩
  · intro hkb
    subst hkb
    obtain ⟨m, hm, hmle⟩ := searchLoop_inner db ip
      (if k = 32 then db.v4offset else 0) hb k 0 _ rfl (by omega)
      (fun j _ hj => hall j (by omega))
    unfold search
    simp only [hm]
    rw [if_neg (by omega)]
  · intro hkb hnone
    have h := searchLoop_panic db ip (if bitCount = 32 then db.v4offset else 0) hb
      bitCount 0 _ rfl (by omega) k (Nat.zero_le _) (by omega)
      (fun j _ hj => hall j hj) hnone
    unfold search
    simp only [h]
  · intro hkb n hn hgt
    have h := searchLoop_leaf db ip (if bitCount = 32 then db.v4offset else 0) hb
      bitCount 0 _ rfl (by omega) (k + 1) n (Nat.zero_le _) (by omega) hn hgt
      (fun j _ hj => hall j (by omega))
    unfold search
    simp only [h]
    rw [if_pos (by omega)]
  · intro e
    by_cases hs : search db ip bitCount = some (db.nodeCount, e)
    · right
      unfold search at hs
      simp only at hs
      generalize searchLoop db ip bitCount 0 (if bitCount = 32 then db.v4offset else 0) = r
        at hs
      cases r with
      | none => simp at hs
      | some node =>
        simp only at hs
        split at hs
        · rename_i hgt
          simp only [Option.some.injEq, Prod.mk.injEq] at hs
          omega
        · simp only [Option.some.injEq, Prod.mk.injEq] at hs
          exact ⟨hs.1.symm, hs.2.symm⟩
    · exact Or.inl hs

theorem search_nodeCount_not_leaf_witness :
    search exampleAtCount [0, 0, 0, 0] 32 = some (579, none) :=
  (search_nodeCount_not_leaf exampleAtCount [0, 0, 0, 0] 32 1 (by decide) (by decide)
    (by decide) (by decide)
    (fun j hj => ⟨16, by
      have h0 : j = 0 := by omega
      subst h0
      decide, by decide⟩)).2.2.1 (by decide) 579 (by decide) (by decide)

/-- C14, the claim as stated fails: in `exampleAtCount` the traversal of
`0.0.0.0` reaches the pointer value `17 = nodeCount` after one step; `search`
does not stop there but reads entry 17, the first bytes `00 00 02 43` of the
record area, and returns the value 579 as the leaf. -/
theorem search_reads_entry_at_nodeCount :
    exampleAtCount.nodeCount = 17 ∧
    pathNode exampleAtCount [0, 0, 0, 0] exampleAtCount.v4offset 1 = some 17 ∧
    readNode exampleAtCount 17 0 = some 579 ∧
    search exampleAtCount [0, 0, 0, 0] 32 = some (579, none) := by
  refine ⟨?_, ?_, ?_, ?_⟩ <;> decide

/-! ## The size check of the construction -/

theorem getD_lt_256 (l : List Nat) (hl : ∀ b ∈ l, b < 256) (i : Nat) : l.getD i 0 < 256 := by
  rw [List.getD_eq_getElem?_getD]
  cases h : l[i]? with
  | none => simp
  | some b =>
    simp only [Option.getD_some]
    exact hl b (List.getElem?_mem h)

theorem Uint32_lt (l : List Nat) (hl : ∀ b ∈ l, b < 256) : Uint32 l < 2 ^ 32 := by
  have h0 := getD_lt_256 l hl 0
  have h1 := getD_lt_256 l hl 1
  have h2 := getD_lt_256 l hl 2
  have h3 := getD_lt_256 l hl 3
  unfold Uint32
  omega

theorem wrap64_eq_nonneg (x y : Int) (hy0 : 0 ≤ y) (hy1 : y < 2 ^ 63)
    (hx0 : -2 ^ 63 ≤ x) (hx1 : x < 2 ^ 64) (h : y = wrap64 x) : x = y := by
  unfold wrap64 at h
  omega

/-- C11, as the code behaves: for a file image of at least 4 bytes with header
length `L` whose metadata block decodes to `m` with a non-empty language map
and a non-empty field list: if `4 + L + m.TotalSize` differs from the file
length, `newReader` returns `ErrFileSize` and no reader; and whenever
`newReader` succeeds, `data` is exactly the file bytes from `4 + L` to the end
and `len(data) = m.TotalSize`. -/
theorem newReader_file_size (unmarshal : List Nat → Option MetaData) (file slack : List Nat)
    (m : MetaData) (hbytes : ∀ b ∈ file, b < 256) (hlen : file.length < 2 ^ 63)
    (h4 : 4 ≤ file.length)
    (hdec : unmarshal ((file.drop 4).take (Uint32 (file.take 4))) = some m)
    (hne : m.Languages ≠ [] ∧ m.Fields ≠ [])
    (hT : -2 ^ 63 ≤ m.TotalSize ∧ m.TotalSize < 2 ^ 63) :
    ((4 : Int) + (Uint32 (file.take 4) : Nat) + m.TotalSize ≠ (file.length : Int) →
      newReader unmarshal file slack = some (none, some Err.ErrFileSize)) ∧
    (∀ db, newReader unmarshal file slack = some (some db, none) →
      db.data = file.drop (4 + Uint32 (file.take 4)) ∧
      (db.data.length : Int) = m.TotalSize) := by
  have hL : Uint32 (file.take 4) < 2 ^ 32 :=
    Uint32_lt _ (fun b hb => hbytes b (List.mem_of_mem_take hb))
  have hcast : (((Uint32 (file.take 4) : Nat) : Int)).toNat = Uint32 (file.take 4) :=
    Int.toNat_natCast _
  have hcast2 : ((4 : Int) + ((Uint32 (file.take 4) : Nat) : Int)).toNat
      = 4 + Uint32 (file.take 4) := by omega
  constructor
  · intro hdiff
    unfold newReader
    simp only
    rw [if_neg (by omega)]
    split
    · rfl
    · rw [hcast, hdec]
      simp only
      rw [if_neg (by
        intro h
        rcases h with h | h
        · exact hne.1 (List.length_eq_zero.mp h)
        · exact hne.2 (List.length_eq_zero.mp h))]
      rw [if_pos (by
        intro h
        exact hdiff (wrap64_eq_nonneg _ _ (by omega) (by exact_mod_cast hlen)
          (by omega) (by omega) h))]
  · intro db hdb
    obtain ⟨m1, hm1, _, hsz, hnl, _, _, _, hdata, _, _⟩ :=
      newReader_success unmarshal file slack db hdb
    rw [hcast, hdec] at hm1
    cases hm1
    rw [hcast2] at hdata
    have hx := wrap64_eq_nonneg _ _ (by omega) (by exact_mod_cast hlen)
      (by omega) (by omega) hsz
    refine ⟨hdata, ?_⟩
    rw [hdata, List.length_drop]
    omega

theorem newReader_file_size_witness :
    ((4 : Int) + (Uint32 ((exampleFile 2 (exampleData 18 22 exampleRecords)).take 4) : Nat)
        + (exampleMeta 1 17 144).TotalSize
        ≠ ((exampleFile 2 (exampleData 18 22 exampleRecords)).length : Int) →
      newReader (fun _ => some (exampleMeta 1 17 144))
        (exampleFile 2 (exampleData 18 22 exampleRecords)) exampleSlack
        = some (none, some Err.ErrFileSize)) ∧
    (∀ db, newReader (fun _ => some (exampleMeta 1 17 144))
        (exampleFile 2 (exampleData 18 22 exampleRecords)) exampleSlack
        = some (some db, none) →
      db.data = (exampleFile 2 (exampleData 18 22 exampleRecords)).drop
        (4 + Uint32 ((exampleFile 2 (exampleData 18 22 exampleRecords)).take 4)) ∧
      (db.data.length : Int) = (exampleMeta 1 17 144).TotalSize) :=
  newReader_file_size (fun _ => some (exampleMeta 1 17 144))
    (exampleFile 2 (exampleData 18 22 exampleRecords)) exampleSlack (exampleMeta 1 17 144)
    (by decide) (by decide) (by decide) rfl (by decide) (by decide)

/-- C11, the claim as stated fails: the descriptor of this 151-byte file decodes,
`4 + 2 + 999` differs from the file length, and `newReader` returns
`ErrMetaData`, not `ErrFileSize`: the test for an empty language map comes
before the size test. -/
theorem newReader_metadata_error_first :
    (exampleFile 2 (exampleData 18 22 exampleRecords)).length = 151 ∧
    Uint32 ((exampleFile 2 (exampleData 18 22 exampleRecords)).take 4) = 2 ∧
    exampleMetaNoLanguage.TotalSize = 999 ∧
    newReader (fun _ => some exampleMetaNoLanguage)
        (exampleFile 2 (exampleData 18 22 exampleRecords)) exampleSlack
      = some (none, some Err.ErrMetaData) := by
  refine ⟨?_, ?_, ?_, ?_⟩ <;> decide

/-! ## Reads inside the node table -/

theorem sliceCap_append_inside (data slack : List Nat) (lo hi : Int) (h0 : 0 ≤ lo)
    (h1 : lo ≤ hi) (h2 : hi ≤ (data.length : Int)) :
    sliceCap (data ++ slack) lo hi = some ((data.drop lo.toNat).take (hi - lo).toNat) := by
  unfold sliceCap
  rw [if_pos ⟨h0, h1, by rw [List.length_append]; push_cast; omega⟩]
  congr 1
  rw [List.drop_append_of_le_length (by omega), List.take_append_of_le_length]
  rw [List.length_drop]
  omega

theorem readNode_two (db1 db2 : reader) (hd : db1.data = db2.data) (node index : Int)
    (h0 : 0 ≤ node) (hi0 : 0 ≤ index) (hi1 : index ≤ 1)
    (hin : node * 8 + 8 ≤ (db1.data.length : Int)) (hsz : (db1.data.length : Int) < 2 ^ 63) :
    ∃ n, readNode db1 node index = some n ∧ readNode db2 node index = some n ∧ 0 ≤ n := by
  have e1 : wrap64 (node * 8) = node * 8 := wrap64_of_range _ (by omega) (by omega)
  have e2 : wrap64 (index * 4) = index * 4 := wrap64_of_range _ (by omega) (by omega)
  have e3 : wrap64 (node * 8 + index * 4) = node * 8 + index * 4 :=
    wrap64_of_range _ (by omega) (by omega)
  have e4 : wrap64 (node * 8 + index * 4 + 4) = node * 8 + index * 4 + 4 :=
    wrap64_of_range _ (by omega) (by omega)
  have s1 := sliceCap_append_inside db1.data db1.slack (node * 8 + index * 4)
    (node * 8 + index * 4 + 4) (by omega) (by omega) (by omega)
  have s2 := sliceCap_append_inside db2.data db2.slack (node * 8 + index * 4)
    (node * 8 + index * 4 + 4) (by omega) (by omega) (by rw [← hd]; omega)
  refine ⟨((Uint32 ((db1.data.drop (node * 8 + index * 4).toNat).take
    (node * 8 + index * 4 + 4 - (node * 8 + index * 4)).toNat) : Nat) : Int), ?_, ?_,
    Int.natCast_nonneg _⟩
  · unfold readNode
    simp only [e1, e2, e3, e4, s1]
  · unfold readNode
    simp only [e1, e2, e3, e4, s2, hd]

theorem v4walk_two (db1 db2 : reader) (hd : db1.data = db2.data)
    (hn : db1.nodeCount = db2.nodeCount)
    (htab : 8 * (db1.nodeCount + 1) ≤ (db1.data.length : Int))
    (hsz : (db1.data.length : Int) < 2 ^ 63) :
    ∀ (rem i : Nat) (node : Int), 0 ≤ node →
      ∃ r, v4walk db1 rem i node = some r ∧ v4walk db2 rem i node = some r ∧ 0 ≤ r := by
  intro rem
  induction rem with
  | zero =>
    intro i node h0
    exact ⟨node, rfl, rfl, h0⟩
  | succ rem ih =>
    intro i node h0
    unfold v4walk
    rw [← hn]
    by_cases hlt : node < db1.nodeCount
    · rw [if_pos hlt, if_pos hlt]
      obtain ⟨n, h1, h2, hn0⟩ := readNode_two db1 db2 hd node (if i ≥ 80 then 1 else 0) h0
        (by split <;> omega) (by split <;> omega) (by omega) hsz
      rw [h1, h2]
      exact ih (i + 1) n hn0
    · rw [if_neg hlt, if_neg hlt]
      exact ⟨node, rfl, rfl, h0⟩

theorem ipBit_le_one (b i : Nat) : ipBit b i ≤ 1 := by
  unfold ipBit
  rw [Nat.and_one_is_mod]
  omega

theorem searchLoop_two (db1 db2 : reader) (ip : List Nat) (hd : db1.data = db2.data)
    (hn : db1.nodeCount = db2.nodeCount)
    (htab : 8 * (db1.nodeCount + 1) ≤ (db1.data.length : Int))
    (hsz : (db1.data.length : Int) < 2 ^ 63) :
    ∀ (rem i : Nat) (node : Int), 0 ≤ node → i + rem ≤ 8 * ip.length →
      ∃ r, searchLoop db1 ip rem i node = some r ∧ searchLoop db2 ip rem i node = some r := by
  intro rem
  induction rem with
  | zero =>
    intro i node _ _
    exact ⟨node, rfl, rfl⟩
  | succ rem ih =>
    intro i node h0 hlen
    unfold searchLoop
    rw [← hn]
    by_cases hgt : node > db1.nodeCount
    · rw [if_pos hgt, if_pos hgt]
      exact ⟨node, rfl, rfl⟩
    · rw [if_neg hgt, if_neg hgt]
      have h8 : i >>> 3 = i / 8 := by simp [Nat.shiftRight_eq_div_pow]
      have hlt : i >>> 3 < ip.length := by omega
      rw [List.getElem?_eq_getElem hlt]
      simp only
      have hbit := ipBit_le_one ip[i >>> 3] i
      obtain ⟨n, h1, h2, hn0⟩ := readNode_two db1 db2 hd node (ipBit ip[i >>> 3] i : Nat) h0
        (Int.natCast_nonneg _) (by exact_mod_cast hbit) (by omega) hsz
      rw [h1, h2]
      exact ih (i + 1) n hn0 (by omega)

theorem newReader_after_checks (unmarshal : List Nat → Option MetaData)
    (file slack : List Nat) (m : MetaData) (h4 : 4 ≤ file.length)
    (hL : 4 + Uint32 (file.take 4) ≤ file.length)
    (hdec : unmarshal ((file.drop 4).take (Uint32 (file.take 4))) = some m)
    (hne : m.Languages ≠ [] ∧ m.Fields ≠ [])
    (hsz : (file.length : Int)
      = wrap64 (4 + ((Uint32 (file.take 4) : Nat) : Int) + m.TotalSize)) :
    newReader unmarshal file slack
      = match v4walk (readerBeforeWalk file m slack) 96 0 0 with
        | none => none
        | some node => some (some { readerBeforeWalk file m slack with v4offset := node },
            none) := by
  have hcast : (((Uint32 (file.take 4) : Nat) : Int)).toNat = Uint32 (file.take 4) :=
    Int.toNat_natCast _
  unfold newReader
  simp only
  rw [if_neg (by omega), if_neg (by omega), hcast, hdec]
  simp only
  rw [if_neg (by
    intro h
    rcases h with h | h
    · exact hne.1 (List.length_eq_zero.mp h)
    · exact hne.2 (List.length_eq_zero.mp h)), if_neg (by
    intro h
    exact h hsz)]
  rfl

/-- C12, as the code behaves: for every file image that passes the header
checks of `newReader` and whose body holds the node entries `0..nodeCount`
(`8 * (nodeCount + 1) <= len(data)`), the construction succeeds and every later
`search` on an address with at least `bitCount` bits returns, both results
being those of the reader `db` with nothing beyond `data` (where a slice
that leaves `data` is a panic) and the same for every content `slack` of the
buffer beyond `data`: no node entry outside `data` is read. -/
theorem newReader_reads_inside_data (unmarshal : List Nat → Option MetaData)
    (file : List Nat) (m : MetaData) (hlen : file.length < 2 ^ 63) (h4 : 4 ≤ file.length)
    (hL : 4 + Uint32 (file.take 4) ≤ file.length)
    (hdec : unmarshal ((file.drop 4).take (Uint32 (file.take 4))) = some m)
    (hne : m.Languages ≠ [] ∧ m.Fields ≠ [])
    (hsz : (file.length : Int)
      = wrap64 (4 + ((Uint32 (file.take 4) : Nat) : Int) + m.TotalSize))
    (htab : 8 * (m.NodeCount + 1)
      ≤ (file.length : Int) - 4 - ((Uint32 (file.take 4) : Nat) : Int)) :
    ∃ db : reader, db.slack = [] ∧
      (∀ slack, newReader unmarshal file slack
        = some (some { db with slack := slack }, none)) ∧
      ∀ (ip : List Nat) (bitCount : Nat) (slack : List Nat), bitCount ≤ 8 * ip.length →
        ∃ r, search db ip bitCount = some r ∧
          search { db with slack := slack } ip bitCount = some r := by
  have hdl : ((readerBeforeWalk file m []).data.length : Int)
      = (file.length : Int) - 4 - ((Uint32 (file.take 4) : Nat) : Int) := by
    unfold readerBeforeWalk
    simp only [List.length_drop]
    omega
  have htab0 : 8 * ((readerBeforeWalk file m []).nodeCount + 1)
      ≤ ((readerBeforeWalk file m []).data.length : Int) := by
    rw [hdl]
    exact htab
  have hsz0 : ((readerBeforeWalk file m []).data.length : Int) < 2 ^ 63 := by
    rw [hdl]
    omega
  obtain ⟨r, hr, _, hr0⟩ := v4walk_two (readerBeforeWalk file m []) (readerBeforeWalk file m [])
    rfl rfl htab0 hsz0 96 0 0 (le_refl _)
  refine ⟨{ readerBeforeWalk file m [] with v4offset := r }, rfl, ?_, ?_⟩
  · intro slack
    obtain ⟨r1, h1, h2, _⟩ := v4walk_two (readerBeforeWalk file m [])
      (readerBeforeWalk file m slack) rfl rfl htab0 hsz0 96 0 0 (le_refl _)
    rw [hr] at h1
    cases h1
    rw [newReader_after_checks unmarshal file slack m h4 hL hdec hne hsz, h2]
    rfl
  · intro ip bitCount slack hbc
    obtain ⟨r1, h1, h2⟩ := searchLoop_two { readerBeforeWalk file m [] with v4offset := r }
      { readerBeforeWalk file m [] with v4offset := r, slack := slack } ip rfl rfl htab0 hsz0
      bitCount 0 (if bitCount = 32 then r else 0) (by split <;> omega) (by omega)
    unfold search
    simp only [h1, h2]
    split
    · exact ⟨_, rfl, rfl⟩
    · exact ⟨_, rfl, rfl⟩

theorem newReader_reads_inside_data_witness :
    ∃ db : reader, db.slack = [] ∧
      (∀ slack, newReader (fun _ => some (exampleMeta 1 17 145))
          (exampleFile 2 (exampleData 18 22 exampleRecords)) slack
        = some (some { db with slack := slack }, none)) ∧
      ∀ (ip : List Nat) (bitCount : Nat) (slack : List Nat), bitCount ≤ 8 * ip.length →
        ∃ r, search db ip bitCount = some r ∧
          search { db with slack := slack } ip bitCount = some r :=
  newReader_reads_inside_data (fun _ => some (exampleMeta 1 17 145))
    (exampleFile 2 (exampleData 18 22 exampleRecords)) (exampleMeta 1 17 145)
    (by decide) (by decide) (by decide) rfl (by decide) (by decide) (by decide)

/-- C12, the claim as stated fails: this 151-byte file passes the header checks
of `newReader` (sizes consistent, descriptor decoded, language map and field
list non-empty), and the construction walk reads entry 0, gets the node index
500 (below `nodeCount = 1000`) and calls `readNode(500, 0)`, whose bytes
`4000..4003` lie outside the 145-byte body: the construction panics. -/
theorem newReader_walk_reads_outside :
    (exampleFile 2 (PutUint32 500 ++ (exampleData 18 22 exampleRecords).drop 4)).length = 151 ∧
    exampleWalkOut.data.length = 145 ∧ exampleWalkOut.nodeCount = 1000 ∧
    readNode exampleWalkOut 0 0 = some 500 ∧
    readNode exampleWalkOut 500 0 = none ∧
    newReader (fun _ => some (exampleMeta 1 1000 145))
        (exampleFile 2 (PutUint32 500 ++ (exampleData 18 22 exampleRecords).drop 4))
        exampleSlack
      = none := by
  refine ⟨?_, ?_, ?_, ?_, ?_, ?_⟩ <;> decide

/-! ## The map of field names -/

theorem mem_mapSet (info : List (String × List Nat)) (f : String) (v : List Nat)
    (p : String × List Nat) (h : p ∈ mapSet info f v) : p = (f, v) ∨ p ∈ info := by
  unfold mapSet at h
  rcases List.mem_cons.mp h with h | h
  · exact Or.inl h
  · exact Or.inr (List.mem_filter.mp h).1

theorem mapSet_fresh (info : List (String × List Nat)) (f : String) (v : List Nat)
    (h : ∀ p ∈ info, p.1 ≠ f) : mapSet info f v = (f, v) :: info := by
  unfold mapSet
  congr 1
  exact List.filter_eq_self.mpr (fun p hp => by simpa using h p hp)

theorem lookup_mem_key (l : List (String × List Nat)) (key : String) (val : List Nat)
    (h : l.lookup key = some val) : ∃ p ∈ l, p.1 = key := by
  induction l with
  | nil => simp at h
  | cons q l ih =>
    obtain ⟨f, v⟩ := q
    rw [List.lookup_cons] at h
    by_cases hk : key = f
    · exact ⟨(f, v), List.mem_cons_self _ _, hk.symm⟩
    · have hb : (key == f) = false := by simpa using hk
      rw [hb] at h
      obtain ⟨p, hp, hpk⟩ := ih h
      exact ⟨p, List.mem_cons_of_mem _ hp, hpk⟩

theorem lookup_cons_ne (f : String) (v : List Nat) (l : List (String × List Nat))
    (key : String) (hne : key ≠ f) : ((f, v) :: l).lookup key = l.lookup key := by
  rw [List.lookup_cons]
  have hb : (key == f) = false := by simpa using hne
  rw [hb]

theorem FindMapLoop_keys (fields : List String) :
    ∀ (data : List (List Nat)) (k : Nat) (info : List (String × List Nat)),
      k + data.length ≤ fields.length →
      ∃ out, FindMapLoop fields data k info = some out ∧
        ∀ p ∈ out, p ∈ info ∨ ∃ j, j < fields.length ∧ fields[j]? = some p.1 := by
  intro data
  induction data with
  | nil =>
    intro k info _
    exact ⟨info, rfl, fun p hp => Or.inl hp⟩
  | cons v rest ih =>
    intro k info hlen
    simp only [List.length_cons] at hlen
    have hk : k < fields.length := by omega
    unfold FindMapLoop
    rw [List.getElem?_eq_getElem hk]
    simp only
    obtain ⟨out, hout, hkeys⟩ := ih (k + 1) (mapSet info fields[k] v) (by omega)
    refine ⟨out, hout, fun p hp => ?_⟩
    rcases hkeys p hp with h | h
    · rcases mem_mapSet _ _ _ _ h with h1 | h1
      · right
        exact ⟨k, hk, by rw [h1, List.getElem?_eq_getElem hk]⟩
      · exact Or.inl h1
    · exact Or.inr h

theorem FindMapLoop_nodup (fields : List String) (hnd : fields.Nodup) :
    ∀ (data : List (List Nat)) (k : Nat) (info out : List (String × List Nat)),
      k + data.length ≤ fields.length →
      (∀ p ∈ info, ∃ j, j < k ∧ fields[j]? = some p.1) →
      FindMapLoop fields data k info = some out →
      out.length = info.length + data.length ∧
      (∀ key val, info.lookup key = some val → out.lookup key = some val) ∧
      (∀ j, j < data.length → ∃ f val, fields[k + j]? = some f ∧ data[j]? = some val ∧
        out.lookup f = some val) := by
  intro data
  induction data with
  | nil =>
    intro k info out _ _ h
    simp only [FindMapLoop, Option.some.injEq] at h
    subst h
    exact ⟨rfl, fun _ _ h => h, fun j hj => absurd hj (Nat.not_lt_zero _)⟩
  | cons v rest ih =>
    intro k info out hlen hinfo h
    simp only [List.length_cons] at hlen
    have hk : k < fields.length := by omega
    unfold FindMapLoop at h
    rw [List.getElem?_eq_getElem hk] at h
    simp only at h
    have hfresh : ∀ p ∈ info, p.1 ≠ fields[k] := by
      intro p hp heq
      obtain ⟨j, hj, hfj⟩ := hinfo p hp
      have hjl : j < fields.length := by omega
      rw [List.getElem?_eq_getElem hjl, Option.some.injEq, heq] at hfj
      have := (@List.Nodup.getElem_inj_iff _ _ hnd j hjl k hk).mp hfj
      omega
    rw [mapSet_fresh info _ v hfresh] at h
    obtain ⟨hl, hkeep, hnew⟩ := ih (k + 1) ((fields[k], v) :: info) out (by omega)
      (by
        intro p hp
        rcases List.mem_cons.mp hp with h1 | h1
        · exact ⟨k, by omega, by rw [h1, List.getElem?_eq_getElem hk]⟩
        · obtain ⟨j, hj, hfj⟩ := hinfo p h1
          exact ⟨j, by omega, hfj⟩) h
    refine ⟨?_, ?_, ?_⟩
    · rw [hl]
      simp only [List.length_cons]
      omega
    · intro key val hkv
      apply hkeep
      have hne : key ≠ fields[k] := by
        intro heq
        obtain ⟨p, hp, hpk⟩ := lookup_mem_key info key val hkv
        exact hfresh p hp (hpk.trans heq)
      rw [lookup_cons_ne _ _ _ _ hne]
      exact hkv
    · intro j hj
      cases j with
      | zero =>
        refine ⟨fields[k], v, by rw [Nat.add_zero, List.getElem?_eq_getElem hk], by simp, ?_⟩
        exact hkeep _ _ (List.lookup_cons_self)
      | succ j =>
        simp only [List.length_cons] at hj
        obtain ⟨f, val, hf, hv, hlook⟩ := hnew j (by omega)
        refine ⟨f, val, ?_, ?_, hlook⟩
        · rw [← hf]
          congr 1
          omega
        · simpa using hv

theorem Find_ok_length (parseIP : String → List Nat) (db : reader)
    (addr language : String) (v : List (List Nat)) (hn : db.meta.Fields.length < 2 ^ 63)
    (h : Find parseIP db addr language = some (v, none)) :
    v.length = db.meta.Fields.length := by
  unfold Find find1 at h
  split at h
  · simp at h
  · rename_i off _
    split at h
    · simp at h
    · simp at h
    · simp only at h
      split at h
      · simp at h
      · split at h
        · simp at h
        · rename_i fs hfs
          simp only [Option.some.injEq, Prod.mk.injEq, and_true] at h
          subst h
          obtain ⟨h0, h1, _, _⟩ := sliceCap_some _ _ _ _ hfs
          have hl := sliceCap_length _ _ _ _ hfs
          have hw := wrap64_range (off + (db.meta.Fields.length : Int))
          unfold wrap64 at h1 hw hl
          omega

/-- C13: `FindMap` panics exactly when `Find` does and fails exactly when
`Find` fails, with the same error; when `Find` returns the values `v` (there
are `len(meta.Fields)` of them), `FindMap` returns a map in which every key is
some `meta.Fields[k]` and, if the field names are pairwise distinct, the map
has exactly `len(meta.Fields)` entries with `map[meta.Fields[k]] = v[k]` for
every `k`. -/
theorem FindMap_agrees (parseIP : String → List Nat) (db : reader)
    (addr language : String) (hn : db.meta.Fields.length < 2 ^ 63) :
    (FindMap parseIP db addr language = none ↔ Find parseIP db addr language = none) ∧
    (∀ e, (∃ info, FindMap parseIP db addr language = some (info, some e)) ↔
      (∃ v, Find parseIP db addr language = some (v, some e))) ∧
    (∀ v, Find parseIP db addr language = some (v, none) →
      v.length = db.meta.Fields.length ∧
      ∃ info, FindMap parseIP db addr language = some (info, none) ∧
        (∀ p ∈ info, ∃ k, k < db.meta.Fields.length ∧ db.meta.Fields[k]? = some p.1) ∧
        (db.meta.Fields.Nodup →
          info.length = db.meta.Fields.length ∧
          ∀ k, k < db.meta.Fields.length →
            ∃ f val, db.meta.Fields[k]? = some f ∧ v[k]? = some val ∧
              info.lookup f = some val)) := by
  have hok : ∀ v, Find parseIP db addr language = some (v, none) →
      v.length = db.meta.Fields.length ∧
      ∃ info, FindMap parseIP db addr language = some (info, none) ∧
        FindMapLoop db.meta.Fields v 0 [] = some info ∧
        (∀ p ∈ info, ∃ k, k < db.meta.Fields.length ∧ db.meta.Fields[k]? = some p.1) := by
    intro v hv
    have hl := Find_ok_length parseIP db addr language v hn hv
    obtain ⟨info, hinfo, hkeys⟩ := FindMapLoop_keys db.meta.Fields v 0 [] (by omega)
    refine ⟨hl, info, ?_, hinfo, ?_⟩
    · unfold FindMap
      unfold Find at hv
      rw [hv]
      simp only [hinfo]
    · intro p hp
      rcases hkeys p hp with h | h
      · simp at h
      · exact h
  refine ⟨⟨?_, ?_⟩, ?_, ?_⟩
  · intro h
    cases hf : Find parseIP db addr language with
    | none => rfl
    | some r =>
      obtain ⟨v, e⟩ := r
      cases e with
      | none =>
        obtain ⟨_, info, hinfo, _⟩ := hok v hf
        rw [h] at hinfo
        cases hinfo
      | some e =>
        unfold FindMap at h
        unfold Find at hf
        rw [hf] at h
        simp at h
  · intro h
    unfold FindMap
    unfold Find at h
    rw [h]
  · intro e
    constructor
    · rintro ⟨info, h⟩
      cases hf : Find parseIP db addr language with
      | none =>
        unfold FindMap at h
        unfold Find at hf
        rw [hf] at h
        simp at h
      | some r =>
        obtain ⟨v, e1⟩ := r
        cases e1 with
        | none =>
          obtain ⟨_, info1, hinfo, _⟩ := hok v hf
          rw [h] at hinfo
          simp at hinfo
        | some e1 =>
          unfold FindMap at h
          unfold Find at hf
          rw [hf] at h
          simp only [Option.some.injEq, Prod.mk.injEq] at h
          rw [h.2]
          exact ⟨v, rfl⟩
    · rintro ⟨v, h⟩
      refine ⟨[], ?_⟩
      unfold FindMap
      unfold Find at h
      rw [h]
  · intro v hv
    obtain ⟨hl, info, hinfo, hloop, hkeys⟩ := hok v hv
    refine ⟨hl, info, hinfo, hkeys, ?_⟩
    intro hnd
    obtain ⟨h1, _, h3⟩ := FindMapLoop_nodup db.meta.Fields hnd v 0 [] info (by omega)
      (fun p hp => by simp at hp) hloop
    refine ⟨by simpa [hl] using h1, ?_⟩
    intro k hk
    obtain ⟨f, val, hf, hval, hlook⟩ := h3 k (by omega)
    exact ⟨f, val, by simpa using hf, hval, hlook⟩

theorem FindMap_agrees_witness :
    [[67, 78]].length = exampleDB.meta.Fields.length ∧
    ∃ info, FindMap exampleParseIP exampleDB "0.0.0.0" "EN" = some (info, none) ∧
      (∀ p ∈ info, ∃ k, k < exampleDB.meta.Fields.length ∧
        exampleDB.meta.Fields[k]? = some p.1) ∧
      (exampleDB.meta.Fields.Nodup →
        info.length = exampleDB.meta.Fields.length ∧
        ∀ k, k < exampleDB.meta.Fields.length →
          ∃ f val, exampleDB.meta.Fields[k]? = some f ∧ [[67, 78]][k]? = some val ∧
            info.lookup f = some val) :=
  (FindMap_agrees exampleParseIP exampleDB "0.0.0.0" "EN" (by decide)).2.2
    [[67, 78]] (by decide)

/-! ## Termination of the range export -/

theorem scan_not_through (db : reader) (ip : List Nat) :
    ∀ (rem i : Nat) (node : Int), 8 * ip.length < i + rem → 1 ≤ rem →
      scan db ip rem i node ≠ Scan.through := by
  intro rem
  induction rem with
  | zero =>
    intro i node _ h1
    omega
  | succ rem ih =>
    intro i node hlen _
    unfold scan
    split
    · simp
    · split
      · simp
      · rename_i b hb
        split
        · simp
        · by_cases hrem : rem = 0
          · subst hrem
            have h8 : i >>> 3 = i / 8 := by simp [Nat.shiftRight_eq_div_pow]
            have hnone : ip[i >>> 3]? = none := by
              rw [List.getElem?_eq_none]
              omega
            rw [hnone] at hb
            cases hb
          · exact ih (i + 1) _ (by omega) (by omega)

theorem writeTXTLoop_halts (db : reader) (language : String) :
    ∀ (fuel : Nat) (c : Cursor), 0 ≤ c.end_ → (2 * 2 ^ 32 - c.end_).toNat + 1 ≤ fuel →
      (writeTXTLoop db language fuel c).2 ≠ Halt.fuel := by
  intro fuel
  induction fuel with
  | zero =>
    intro c _ h
    omega
  | succ fuel ih =>
    intro c h0 hf
    unfold writeTXTLoop
    split
    · simp
    · rename_i hlt
      simp only
      split
      · simp
      · rename_i hscan
        exact absurd hscan (scan_not_through db _ 33 0 _ (by simp [PutUint32]) (by omega))
      · rename_i i node hscan
        have hge := blockEnd_ge c.end_ i
        have hfuel : ∀ c1 : Cursor, c1.end_ = blockEnd c.end_ 32 i + 1 →
            (writeTXTLoop db language fuel c1).2 ≠ Halt.fuel := by
          intro c1 hc1
          apply ih c1
          · omega
          · rw [hc1]
            omega
        split
        · exact hfuel _ rfl
        · split
          · exact hfuel _ rfl
          · split
            · simp
            · split
              · simp
              · split
                · simp
                · split
                  · simp
                  · exact hfuel _ rfl

theorem writeTXT_halts (db : reader) (language : String) :
    (writeTXT db language).2 ≠ Halt.fuel :=
  writeTXTLoop_halts db language _ _ (le_refl _)
    (by show (2 * 2 ^ 32 - (0 : Int)).toNat + 1 ≤ 2 ^ 33 + 1; decide)

/-- C19, the code at a failing input: on `exampleDB` the loop condition of
`writeTXT` is evaluated at the cursor values `0`, `2^31`, `2^32`,
`2^32 + 2^31` and `2^33`: the cursor grows in every iteration, but the values
`2^32` and `2^32 + 2^31` are classified as well and the loop exits with
`end = 2^33`, not `2^32`. -/
theorem writeTXT_cursor_passes_limit :
    (∀ v : Nat, ∃ n, search exampleDB (PutUint32 v) 32 = some (n, none)) ∧
    writeTXTCursors exampleDB "EN" (2 ^ 33 + 1)
        { start := 0, end_ := 0, laststart := 0, lastend := 0,
          lastnode := exampleDB.v4offset }
      = [0, 2147483648, 4294967296, 6442450944, 8589934592] ∧
    (writeTXT exampleDB "EN").2 = Halt.ret none := by
  refine ⟨?_, by decide, by decide⟩
  intro v
  rcases exampleDB_every_address_found v with h | h
  · exact ⟨18, h⟩
  · exact ⟨22, h⟩

/-- C20, the code at a failing input: on the loaded database `exampleSelfLoop`
the traversal of `0.0.0.0` stays on node 16, not above `nodeCount = 17`.  The
32 iterations `i = 0..31` of the inner loop of `writeTXT` end without a leaf;
the loop runs while `i <= bitCount`, so iteration `i = 32` evaluates `ip[4]` on
the 4-byte address and the run panics, where `search` returns
`(-1, ErrDataNotExists)`. -/
theorem writeTXT_indexes_fifth_byte :
    newReader (fun _ => some (exampleMeta 1 17 145))
        (exampleFile 2 (exampleData 16 22 exampleRecords)) exampleSlack
      = some (some exampleSelfLoop, none) ∧
    scan exampleSelfLoop (PutUint32 0) 32 0 exampleSelfLoop.v4offset = Scan.through ∧
    (PutUint32 0)[32 >>> 3]? = none ∧
    scan exampleSelfLoop (PutUint32 0) (32 + 1) 0 exampleSelfLoop.v4offset = Scan.panic ∧
    search exampleSelfLoop (PutUint32 0) 32 = some (-1, some Err.ErrDataNotExists) ∧
    writeTXT exampleSelfLoop "EN" = ([], Halt.panic) := by
  refine ⟨?_, ?_, ?_, ?_, ?_, ?_⟩ <;> decide

end Ipdb
